import Mathlib

/-!
# rimg: TIFF tag decoding and Floyd-Steinberg dithering

A shallow embedding of the decoding helpers and of the ditherer of `rimg.c`.

Conventions of the embedding.

* A C byte array is a `List Nat`; every array access is bounds-checked and an
  access outside the array ends the run with `Abort.outOfBounds`.
* A local that the source declares without an initialiser holds, before its
  first assignment, contents that the embedding takes as a parameter.
* `die(...)` ends the run with the matching `Abort` value.
* Diagnostic output (`printf`) is not part of the embedding.
* The unions `short_union`, `int_union` and `tiftag_union` overlay a byte array
  with an integer (or a struct of integers).  The integer is read with the
  least significant byte at the lowest address, as on the little-endian hosts
  the program's byte swapping is written for.
* `int` is 32 bits wide and two's complement; `char` is signed.
* `>>` on a negative `int` is the arithmetic shift: `n >> 4` is the floor of
  `n / 16`.
* The loop counters of the ditherer are `int`; the embedding takes them as
  unbounded integers, which agrees with the C code as long as the image
  width and height fit an `int` (the caller passes `int` fields).
-/

namespace Rimg

/-- The ways a run can end early. -/
inductive Abort where
  /-- Produced by `die("Unknown datatype in tiff file.")`. -/
  | unknownDatatype
  /-- An array was indexed outside its bounds. -/
  | outOfBounds
  /-- Produced by `die("File does not seem to be a tiff image.")`. -/
  | notATiff
  /-- Produced by `die("Memory allocation error.")`. -/
  | memoryAllocation
deriving DecidableEq, Repr

/-- The struct `TIFTAG`: two 16-bit and two 32-bit unsigned fields. -/
structure TIFTAG where
  TagId : Nat
  DataType : Nat
  DataCount : Nat
  DataOffset : Nat
deriving DecidableEq, Repr

/-! ## Machine integers -/

/-- Conversion of an `unsigned int` value to `int`: reduce modulo `2^32` and read
the bit pattern as two's complement. -/
def toInt32 (u : Nat) : Int :=
  if u % 4294967296 < 2147483648 then ((u % 4294967296 : Nat) : Int)
  else ((u % 4294967296 : Nat) : Int) - 4294967296

/-- Conversion of an `int` to `char` (signed, 8 bits). -/
def toChar (n : Int) : Int := (n + 128) % 256 - 128

/-- Conversion of an integer to `t_1byte` (`unsigned char`). -/
def toByte (n : Int) : Nat := (n % 256).toNat

/-- The member `num` of `short_union` whose bytes are `alpha[0]`, `alpha[1]`. -/
def short_union_num (a0 a1 : Nat) : Nat := a0 + 256 * a1

/-- The member `num` of `int_union` whose bytes are `alpha[0]`..`alpha[3]`. -/
def int_union_num (a0 a1 a2 a3 : Nat) : Nat :=
  a0 + 256 * a1 + 65536 * a2 + 16777216 * a3

/-- Bounds-checked read `bytes[i]`. -/
def readByte (bytes : List Nat) (i : Nat) : Except Abort Nat :=
  match bytes[i]? with
  | some b => .ok b
  | none => .error .outOfBounds

/-! ## Primitive decoders -/

/-- The function `clampInt`: the result type is `char`. -/
def clampInt (n : Int) : Int :=
  if n < 0 then toChar 0
  else if n > 255 then toChar 255
  else toChar n

/-- The function `extract_int_from_4bytes`; the result is the value stored
through `number`. -/
def extract_int_from_4bytes (bytes : List Nat) (isLittleEndian : Bool) (start : Nat) :
    Except Abort Nat := do
  if isLittleEndian then
    let a0 ← readByte bytes (start + 0)
    let a1 ← readByte bytes (start + 1)
    let a2 ← readByte bytes (start + 2)
    let a3 ← readByte bytes (start + 3)
    pure (int_union_num a0 a1 a2 a3)
  else
    let a0 ← readByte bytes (start + 3)
    let a1 ← readByte bytes (start + 2)
    let a2 ← readByte bytes (start + 1)
    let a3 ← readByte bytes (start + 0)
    pure (int_union_num a0 a1 a2 a3)

/-- The function `extract_short_from_2bytes`; the result is the value stored
through `number`. -/
def extract_short_from_2bytes (bytes : List Nat) (isLittleEndian : Bool) (start : Nat) :
    Except Abort Nat := do
  if isLittleEndian then
    let a0 ← readByte bytes (start + 0)
    let a1 ← readByte bytes (start + 1)
    pure (short_union_num a0 a1)
  else
    let a0 ← readByte bytes (start + 1)
    let a1 ← readByte bytes (start + 0)
    pure (short_union_num a0 a1)

/-- The function `getDataSize`: the product is computed in `unsigned int` and
stored in an `int`; an unknown type gives `-1`. -/
def getDataSize (dataType : Nat) (dataCount : Nat) : Int :=
  match dataType with
  | 1 => toInt32 (dataCount * 1)
  | 2 => toInt32 (dataCount * 1)
  | 3 => toInt32 (dataCount * 2)
  | 4 => toInt32 (dataCount * 4)
  | 5 => toInt32 (dataCount * 8)
  | 6 => toInt32 (dataCount * 1)
  | 7 => toInt32 (dataCount * 1)
  | 8 => toInt32 (dataCount * 2)
  | 9 => toInt32 (dataCount * 4)
  | 10 => toInt32 (dataCount * (2 * 4))
  | 11 => toInt32 (dataCount * 4)
  | 12 => toInt32 (dataCount * 8)
  | _ => -1

/-- The function `extract_tiftag_from_12bytes`; the result is the struct stored
through `tiftag`.  The local `tiftag_union` is not initialised by the source:
`junk i` is the byte its `alpha[i]` holds on entry, and it is what
`alpha[8]`..`alpha[11]` still hold when no branch of the big-endian case
assigns them. -/
def extract_tiftag_from_12bytes (junk : Nat → Nat) (bytes : List Nat)
    (isLittleEndian : Bool) (start : Nat) : Except Abort TIFTAG := do
  -- tagid - 2 bytes
  let a0 ← readByte bytes (if isLittleEndian then start + 0 else start + 1)
  let a1 ← readByte bytes (if isLittleEndian then start + 1 else start + 0)
  -- datatype - 2 bytes
  let a2 ← readByte bytes (if isLittleEndian then start + 2 else start + 3)
  let a3 ← readByte bytes (if isLittleEndian then start + 3 else start + 2)
  -- datacount - 4 bytes
  let a4 ← readByte bytes (if isLittleEndian then start + 4 else start + 7)
  let a5 ← readByte bytes (if isLittleEndian then start + 5 else start + 6)
  let a6 ← readByte bytes (if isLittleEndian then start + 6 else start + 5)
  let a7 ← readByte bytes (if isLittleEndian then start + 7 else start + 4)
  -- get data type
  let d2 ← readByte bytes (start + 2)
  let d3 ← readByte bytes (start + 3)
  let dataType ← extract_short_from_2bytes [d2, d3] isLittleEndian 0
  -- get data count
  let c4 ← readByte bytes (start + 4)
  let c5 ← readByte bytes (start + 5)
  let c6 ← readByte bytes (start + 6)
  let c7 ← readByte bytes (start + 7)
  let dataCount ← extract_int_from_4bytes [c4, c5, c6, c7] isLittleEndian 0
  -- calculate data size
  let dataSize := getDataSize dataType dataCount
  if dataSize = -1 then throw Abort.unknownDatatype
  -- dataoffset - 4 bytes
  let a8_11 ← (
    if isLittleEndian then do
      let a8 ← readByte bytes (start + 8)
      let a9 ← readByte bytes (start + 9)
      let a10 ← readByte bytes (start + 10)
      let a11 ← readByte bytes (start + 11)
      pure (a8, a9, a10, a11)
    else if dataSize ≥ 4 then do
      let a8 ← readByte bytes (start + 11)
      let a9 ← readByte bytes (start + 10)
      let a10 ← readByte bytes (start + 9)
      let a11 ← readByte bytes (start + 8)
      pure (a8, a9, a10, a11)
    else if dataSize = 2 then do
      let a8 ← readByte bytes (start + 9)
      let a9 ← readByte bytes (start + 8)
      pure (a8, a9, 0, 0)
    else if dataSize = 1 then do
      let a8 ← readByte bytes (start + 8)
      pure (a8, 0, 0, 0)
    else
      pure (junk 8, junk 9, junk 10, junk 11) : Except Abort (Nat × Nat × Nat × Nat))
  -- fill the tiftag struct with bytes
  pure { TagId := short_union_num a0 a1
         DataType := short_union_num a2 a3
         DataCount := int_union_num a4 a5 a6 a7
         DataOffset := int_union_num a8_11.1 a8_11.2.1 a8_11.2.2.1 a8_11.2.2.2 }

/-- The exact size of a field in bytes: the per-element width that `getDataSize`
gives for one element, times the count, without 32-bit wrap-around. -/
def exactSize (dataType dataCount : Nat) : Int := getDataSize dataType 1 * dataCount

/-- Test construction: the first 8 bytes of a record in little-endian layout,
followed by the four slot bytes. -/
def layoutLE (tagId fieldType count : Nat) (slot : List Nat) : List Nat :=
  [tagId % 256, tagId / 256 % 256, fieldType % 256, fieldType / 256 % 256,
   count % 256, count / 256 % 256, count / 65536 % 256, count / 16777216 % 256] ++ slot

/-- Test construction: the first 8 bytes of a record in big-endian layout,
followed by the four slot bytes. -/
def layoutBE (tagId fieldType count : Nat) (slot : List Nat) : List Nat :=
  [tagId / 256 % 256, tagId % 256, fieldType / 256 % 256, fieldType % 256,
   count / 16777216 % 256, count / 65536 % 256, count / 256 % 256, count % 256] ++ slot

/-! ## The ditherer -/

/-- Bounds-checked read `pixelArray[pos]`, promoted to `int`. -/
def readPixel (pixelArray : List Nat) (pos : Int) : Except Abort Int :=
  if 0 ≤ pos then
    match pixelArray[pos.toNat]? with
    | some v => .ok (v : Int)
    | none => .error .outOfBounds
  else .error .outOfBounds

/-- Bounds-checked store `pixelArray[pos] = v`, with the conversion of `v` to
`t_1byte`. -/
def writePixel (pixelArray : List Nat) (pos : Int) (v : Int) : Except Abort (List Nat) :=
  if 0 ≤ pos ∧ pos.toNat < pixelArray.length then
    .ok (pixelArray.set pos.toNat (toByte v))
  else .error .outOfBounds

/-- The two statements `colorWithError = pixelArray[pos] + share;`
`pixelArray[pos] = clampInt(colorWithError);` of `floydSteinbergDither`. -/
def diffuse (pixelArray : List Nat) (pos : Int) (share : Int) : Except Abort (List Nat) := do
  let colorWithError := (← readPixel pixelArray pos) + share
  writePixel pixelArray pos (clampInt colorWithError)

/-- The body of the inner loop of `floydSteinbergDither`, at column `x` of row `y`. -/
def ditherPixel (imageWidth imageHeight : Int) (y x : Int) (pixelArray : List Nat) :
    Except Abort (List Nat) := do
  let currentPos := y * imageWidth + x
  let inColor ← readPixel pixelArray currentPos
  let realColor : Int := if inColor < 128 then 0 else 255
  let error := inColor - realColor
  let pixelArray ← writePixel pixelArray currentPos realColor
  -- do boundary checks and distribute the errors
  let pixelArray ←
    if x < imageWidth - 1 then diffuse pixelArray (currentPos + 1) ((error * 7) >>> 4)
    else pure pixelArray
  if y + 1 = imageHeight then pure pixelArray
  else do
    let pixelArray ←
      if x > 0 then diffuse pixelArray (currentPos + imageWidth - 1) ((error * 3) >>> 4)
      else pure pixelArray
    let pixelArray ← diffuse pixelArray (currentPos + imageWidth) ((error * 5) >>> 4)
    if x + 1 < imageWidth then
      diffuse pixelArray (currentPos + imageWidth + 1) ((error * 1) >>> 4)
    else pure pixelArray

/-- A counting loop `for (int i = first; i < first + n; i++) body`, run on the
state `s`; it stops at the first abort. -/
def forLoop {σ : Type} (body : Int → σ → Except Abort σ) : Nat → Int → σ → Except Abort σ
  | 0, _, s => .ok s
  | n + 1, i, s =>
    match body i s with
    | .ok s1 => forLoop body n (i + 1) s1
    | .error e => .error e

/-- The function `floydSteinbergDither`; the result is the array it leaves
behind.  The loops run `y` from `0` while `y < imageHeight` and `x` from `0`
while `x < imageWidth`. -/
def floydSteinbergDither (pixelArray : List Nat) (imageWidth imageHeight : Int) :
    Except Abort (List Nat) :=
  forLoop (fun y rows =>
      forLoop (fun x row => ditherPixel imageWidth imageHeight y x row)
        imageWidth.toNat 0 rows)
    imageHeight.toNat 0 pixelArray

/-- The value of the local `error` of the loop body of `floydSteinbergDither` at
column `x` of row `y`, for the array as it is when the pixel is visited. -/
def ditherError (imageWidth : Int) (y x : Int) (pixelArray : List Nat) : Except Abort Int := do
  let currentPos := y * imageWidth + x
  let inColor ← readPixel pixelArray currentPos
  let realColor : Int := if inColor < 128 then 0 else 255
  pure (inColor - realColor)

/-! ## The scan of the design description -/

/-- Reference, from the description: `clamp(t) = 0 if t < 0, 255 if t > 255, else t`. -/
def clampReference (t : Int) : Int := if t < 0 then 0 else if t > 255 then 255 else t

/-- Reference, from the description: the cell `(x, y)` of the row-major grid, holding
`n`, is replaced by `clamp(n + floor(error * weight / 16))`. -/
def propagateReference (raster : List Nat) (width x y : Nat) (error weight : Int) : List Nat :=
  raster.set (y * width + x)
    (clampReference (((raster.getD (y * width + x) 0 : Nat) : Int)
      + Int.fdiv (error * weight) 16)).toNat

/-- Reference, from the description: the visit of the pixel `(x, y)`.  The value is
replaced by its quantisation; the error goes east with weight 7 if
`x + 1 < width`, south-west with weight 3 if `x > 0` and `y + 1 < height`,
south with weight 5 if `y + 1 < height`, south-east with weight 1 if
`x + 1 < width` and `y + 1 < height`. -/
def pixelReference (width height : Nat) (y x : Nat) (raster : List Nat) : List Nat :=
  let observed : Int := ((raster.getD (y * width + x) 0 : Nat) : Int)
  let quantized : Int := if observed < 128 then 0 else 255
  let error := observed - quantized
  let raster := raster.set (y * width + x) quantized.toNat
  let raster :=
    if x + 1 < width then propagateReference raster width (x + 1) y error 7 else raster
  let raster :=
    if x > 0 ∧ y + 1 < height then propagateReference raster width (x - 1) (y + 1) error 3
    else raster
  let raster :=
    if y + 1 < height then propagateReference raster width x (y + 1) error 5 else raster
  if x + 1 < width ∧ y + 1 < height then
    propagateReference raster width (x + 1) (y + 1) error 1
  else raster

/-- Reference, from the description: the scan row by row from the top, each row from
left to right. -/
def ditherReference (raster : List Nat) (width height : Nat) : List Nat :=
  (List.range height).foldl
    (fun rows y => (List.range width).foldl (fun row x => pixelReference width height y x row) rows)
    raster

/-! ## The reading part of `main` -/

/-- The struct `ImageInfo`: five `int` fields and three `unsigned char` fields. -/
structure ImageInfo where
  imageWidth : Int
  imageHeight : Int
  rowsPerStrip : Int
  stripOffsets : Int
  stripByteCounts : Int
  samplesPerPixels : Nat
  bitsPerSample : Nat
  compression : Nat
deriving DecidableEq, Repr

/-- The struct `RGBData`, as the three arrays its members point to. -/
structure RGBData where
  red : List Nat
  green : List Nat
  blue : List Nat
deriving DecidableEq, Repr

/-- The locals that `main` and the decoder declare without an initialiser, with
the contents they have before the first assignment: a byte array is given as
the function from index to byte, `tiftagBytes i` and `tiftag_union i` belong
to iteration `i` of the loop over the directory. -/
structure Uninit where
  fileheader : Nat → Nat
  IFDOffset : Nat → Nat
  numDirEntries : Nat → Nat
  tiftagBytes : Nat → Nat → Nat
  tiftag_union : Nat → Nat → Nat
  imageInfo : ImageInfo
  nextIFDOffset : Nat → Nat
  rgb_dump : Nat → Nat

/-- Result of an `int` operation: reduction to 32 bits, two's complement. -/
def wrapInt32 (n : Int) : Int := (n + 2147483648) % 4294967296 - 2147483648

/-- The call `fread(buffer, 1, count, file_ptr)` with the read position at
`pos`: the array `buffer` afterwards and the new read position.  The bytes the
file still has are stored; at the end of the file the call stores fewer and
the rest of `buffer` keeps what it held. -/
def fread (file : List Nat) (pos count : Nat) (buffer : Nat → Nat) : List Nat × Nat :=
  ((List.range count).map fun k => (file[pos + k]?).getD (buffer k),
    pos + min count (file.length - pos))

/-- One of the two loops of `main` that compare `fileheader` with a signature;
the result is `is_a_tiff`. -/
def matchHeader (fileheader signature : List Nat) : Except Abort Bool :=
  forLoop (fun i is_a_tiff => do
      let a ← readByte fileheader i.toNat
      let b ← readByte signature i.toNat
      pure (if a ≠ b then false else is_a_tiff))
    4 0 true

/-- The header check of `main`: the result is `isLittleEndian`, and a header
that is neither signature ends the run. -/
def main_header (fileheader : List Nat) : Except Abort Bool := do
  let is_a_tiff ← matchHeader fileheader [0x4D, 0x4D, 0x00, 0x2A]
  let is_a_tiff ←
    if is_a_tiff = false then matchHeader fileheader [0x49, 0x49, 0x2A, 0x00]
    else pure is_a_tiff
  -- Check of it is a big-endiand or little-endian tif
  let first ← readByte fileheader 0
  let isLittleEndian := if first = 0x4D then false else true
  -- Die if the file is not identified as a tif
  if is_a_tiff = true then pure isLittleEndian else throw Abort.notATiff

/-- The body of the loop of `main` that fills `tiftags`, in iteration `i`: the
state is `tiftags` so far (entry `i` is appended) and the read position. -/
def main_directory_body (u : Uninit) (file : List Nat) (isLittleEndian : Bool) (i : Int)
    (tiftags : List TIFTAG × Nat) : Except Abort (List TIFTAG × Nat) := do
  let tiftagBytes := fread file tiftags.2 12 (u.tiftagBytes i.toNat)
  let tiftag ←
    extract_tiftag_from_12bytes (u.tiftag_union i.toNat) tiftagBytes.1 isLittleEndian 0
  pure (tiftags.1 ++ [tiftag], tiftagBytes.2)

/-- The directory read of `main`, with the read position at `IFDOffset_val`
(after the `fseek`): the entry count, then the loop that fills `tiftags`.
The result is `tiftags` and the read position after the last record. -/
def main_directory (u : Uninit) (file : List Nat) (isLittleEndian : Bool)
    (IFDOffset_val : Nat) : Except Abort (List TIFTAG × Nat) := do
  let numDirEntries := fread file IFDOffset_val 2 u.numDirEntries
  let numDirEntries_val ← extract_short_from_2bytes numDirEntries.1 isLittleEndian 0
  forLoop (main_directory_body u file isLittleEndian) numDirEntries_val 0
    ([], numDirEntries.2)

/-- The six statements of the body of the loop of `main` that fills `imageInfo`,
for the entry `tiftag`; an `int` field takes `DataOffset` converted to `int`,
the `unsigned char` field takes it reduced modulo 256. -/
def imageInfoStep (imageInfo : ImageInfo) (tiftag : TIFTAG) : ImageInfo :=
  let imageInfo :=
    if tiftag.TagId = 256 then { imageInfo with imageWidth := toInt32 tiftag.DataOffset }
    else imageInfo
  let imageInfo :=
    if tiftag.TagId = 257 then { imageInfo with imageHeight := toInt32 tiftag.DataOffset }
    else imageInfo
  let imageInfo :=
    if tiftag.TagId = 278 then { imageInfo with rowsPerStrip := toInt32 tiftag.DataOffset }
    else imageInfo
  let imageInfo :=
    if tiftag.TagId = 273 then { imageInfo with stripOffsets := toInt32 tiftag.DataOffset }
    else imageInfo
  let imageInfo :=
    if tiftag.TagId = 279 then { imageInfo with stripByteCounts := toInt32 tiftag.DataOffset }
    else imageInfo
  if tiftag.TagId = 277 then { imageInfo with samplesPerPixels := tiftag.DataOffset % 256 }
  else imageInfo

/-- The loop of `main` that fills `imageInfo` from `tiftags[0]`, ..., in this
order; `imageInfo` is what the struct holds before the loop. -/
def main_imageInfo (imageInfo : ImageInfo) (tiftags : List TIFTAG) : ImageInfo :=
  tiftags.foldl imageInfoStep imageInfo

/-- The state of the loop of `main` that reads the pixel data. -/
structure PixelState where
  rgb_dump : Nat → Nat
  pos : Nat
  rgbData : RGBData

/-- The body of the loop of `main` that reads the pixel data: three bytes are
read into `rgb_dump` and stored as `red[p]`, `green[p]`, `blue[p]` (appended
in iteration `p`). -/
def main_pixels_body (file : List Nat) (_p : Int) (s : PixelState) :
    Except Abort PixelState := do
  let rgb_dump := fread file s.pos 3 s.rgb_dump
  let r ← readByte rgb_dump.1 0
  let g ← readByte rgb_dump.1 1
  let b ← readByte rgb_dump.1 2
  pure {
    rgb_dump := fun k => rgb_dump.1.getD k 0
    pos := rgb_dump.2
    rgbData := {
      red := s.rgbData.red ++ [r]
      green := s.rgbData.green ++ [g]
      blue := s.rgbData.blue ++ [b] } }

/-- The pixel load of `main`, with the read position at `pos`: the read of
`nextIFDOffset`, the three allocations, the `fseek` to `stripOffsets` and the
loop that reads three bytes per pixel.  `malloc` is taken to fail for a
negative size (converted to `size_t` it exceeds the address space) and to
succeed otherwise; an `fseek` to a negative offset fails and leaves the read
position where it is. -/
def main_pixels (u : Uninit) (file : List Nat) (imageInfo : ImageInfo) (pos : Nat) :
    Except Abort RGBData := do
  let nextIFDOffset := fread file pos 4 u.nextIFDOffset
  let channelDataSize := wrapInt32 (imageInfo.imageWidth * imageInfo.imageHeight)
  if channelDataSize < 0 then throw Abort.memoryAllocation
  let pos := if 0 ≤ imageInfo.stripOffsets then imageInfo.stripOffsets.toNat
    else nextIFDOffset.2
  let last ← forLoop (main_pixels_body file) channelDataSize.toNat 0
    { rgb_dump := u.rgb_dump, pos := pos, rgbData := { red := [], green := [], blue := [] } }
  pure last.rgbData

/-- The function `main` from the read of the file header to the end of the
pixel load, on the contents `file` of the input file. -/
def main (u : Uninit) (file : List Nat) : Except Abort (ImageInfo × RGBData) := do
  let fileheader := fread file 0 4 u.fileheader
  let isLittleEndian ← main_header fileheader.1
  let IFDOffset := fread file fileheader.2 4 u.IFDOffset
  let IFDOffset_val ← extract_int_from_4bytes IFDOffset.1 isLittleEndian 0
  let tiftags ← main_directory u file isLittleEndian IFDOffset_val
  let imageInfo := main_imageInfo u.imageInfo tiftags.1
  let rgbData ← main_pixels u file imageInfo tiftags.2
  pure (imageInfo, rgbData)

/-- Test construction: locals that hold zero bytes, and the given `imageInfo`. -/
def zeroedLocals (imageInfo : ImageInfo) : Uninit where
  fileheader := fun _ => 0
  IFDOffset := fun _ => 0
  numDirEntries := fun _ => 0
  tiftagBytes := fun _ _ => 0
  tiftag_union := fun _ _ => 0
  imageInfo := imageInfo
  nextIFDOffset := fun _ => 0
  rgb_dump := fun _ => 0

/-- The invariant of the directory loop before iteration `i`. -/
def DirectoryInv (u : Uninit) (file : List Nat) (le : Bool) (ifd : Nat) (i : Int)
    (st : List TIFTAG × Nat) : Prop :=
  ∃ k : Nat, (k : Int) = i ∧ st.2 = ifd + 2 + 12 * k ∧ st.1.length = k ∧
    ∀ m t, st.1[m]? = some t →
      extract_tiftag_from_12bytes (u.tiftag_union m) ((file.drop (ifd + 2 + 12 * m)).take 12) le 0
        = .ok t

/-- The invariant of the scan for the first cell: untouched before the first
visit, quantised from then on. -/
def FirstPixelInv (p : List Nat) (width height : Nat) (v : Nat) (k : Nat) (r : List Nat) :
    Prop :=
  r.length = width * height ∧ (k = 0 → r = p) ∧
    (0 < k → r[0]? = some (if v < 128 then 0 else 255))

/-- An array whose entries are all 0 or 255. -/
def Bilevel (p : List Nat) : Prop := ∀ v ∈ p, v = 0 ∨ v = 255

/-- The entries before position `k` are all 0 or 255. -/
def Done (p : List Nat) (k : Int) : Prop :=
  ∀ i : Nat, (i : Int) < k → ∀ v, p[i]? = some v → v = 0 ∨ v = 255

/-! ## Field sizes -/

theorem toInt32_of_lt {u : Nat} (h : u < 2147483648) : toInt32 u = (u : Int) := by
  unfold toInt32
  have h1 : u % 4294967296 = u := Nat.mod_eq_of_lt (by omega)
  rw [h1, if_pos h]

theorem getDataSize_unknown (dataType dataCount : Nat)
    (h : ¬ (1 ≤ dataType ∧ dataType ≤ 12)) : getDataSize dataType dataCount = -1 := by
  unfold getDataSize
  split <;> first | rfl | omega

theorem toInt32_ne_neg_one_iff (u : Nat) : toInt32 u = -1 ↔ u % 4294967296 = 4294967295 := by
  unfold toInt32
  split <;> omega

theorem getDataSize_one (dataType : Nat) :
    getDataSize dataType 1 =
      if dataType = 1 ∨ dataType = 2 ∨ dataType = 6 ∨ dataType = 7 then 1
      else if dataType = 3 ∨ dataType = 8 then 2
      else if dataType = 4 ∨ dataType = 9 ∨ dataType = 11 then 4
      else if dataType = 5 ∨ dataType = 10 ∨ dataType = 12 then 8
      else -1 := by
  by_cases h : 1 ≤ dataType ∧ dataType ≤ 12
  · obtain ⟨h1, h2⟩ := h
    interval_cases dataType <;> rfl
  · rw [getDataSize_unknown _ _ h]
    split_ifs <;> first | rfl | omega

theorem exactSize_pos_known {dataType dataCount : Nat} (h : 0 < exactSize dataType dataCount) :
    1 ≤ dataType ∧ dataType ≤ 12 := by
  by_contra hn
  unfold exactSize at h
  rw [getDataSize_unknown _ _ hn] at h
  omega

/-- As long as the exact size fits an `int`, `getDataSize` computes it. -/
theorem getDataSize_eq_exactSize {dataType dataCount : Nat}
    (h1 : 1 ≤ dataType) (h2 : dataType ≤ 12) (h : exactSize dataType dataCount < 2147483648) :
    getDataSize dataType dataCount = exactSize dataType dataCount := by
  unfold exactSize at *
  rw [getDataSize_one] at *
  interval_cases dataType <;> simp only [getDataSize] <;> simp at h ⊢ <;>
    (rw [toInt32_of_lt (by omega)] <;> (push_cast; omega))

/-! ## Primitive readings -/

theorem readByte_of_getElem? {bytes : List Nat} {i b : Nat} (h : bytes[i]? = some b) :
    readByte bytes i = .ok b := by
  simp [readByte, h]

theorem extract_short_eq {bytes : List Nat} {start x y : Nat} (le : Bool)
    (hx : bytes[start]? = some x) (hy : bytes[start + 1]? = some y) :
    extract_short_from_2bytes bytes le start
      = .ok (if le then short_union_num x y else short_union_num y x) := by
  have h0 : readByte bytes start = .ok x := readByte_of_getElem? hx
  have h1 : readByte bytes (start + 1) = .ok y := readByte_of_getElem? hy
  cases le <;> simp [extract_short_from_2bytes, h0, h1, bind, Except.bind, pure, Except.pure]

theorem extract_int_eq {bytes : List Nat} {start x y z w : Nat} (le : Bool)
    (hx : bytes[start]? = some x) (hy : bytes[start + 1]? = some y)
    (hz : bytes[start + 2]? = some z) (hw : bytes[start + 3]? = some w) :
    extract_int_from_4bytes bytes le start
      = .ok (if le then int_union_num x y z w else int_union_num w z y x) := by
  have h0 : readByte bytes start = .ok x := readByte_of_getElem? hx
  have h1 : readByte bytes (start + 1) = .ok y := readByte_of_getElem? hy
  have h2 : readByte bytes (start + 2) = .ok z := readByte_of_getElem? hz
  have h3 : readByte bytes (start + 3) = .ok w := readByte_of_getElem? hw
  cases le <;>
    simp [extract_int_from_4bytes, h0, h1, h2, h3, bind, Except.bind, pure, Except.pure]

/-! ## The tag decoder on a 12-byte record -/

/-- The field type of a record, as the decoder reads it. -/
theorem record_type (b0 b1 b2 b3 b4 b5 b6 b7 b8 b9 b10 b11 : Nat) (le : Bool) :
    extract_short_from_2bytes [b0, b1, b2, b3, b4, b5, b6, b7, b8, b9, b10, b11] le 2
      = .ok (if le then short_union_num b2 b3 else short_union_num b3 b2) :=
  extract_short_eq le rfl rfl

/-- The count of a record, as the decoder reads it. -/
theorem record_count (b0 b1 b2 b3 b4 b5 b6 b7 b8 b9 b10 b11 : Nat) (le : Bool) :
    extract_int_from_4bytes [b0, b1, b2, b3, b4, b5, b6, b7, b8, b9, b10, b11] le 4
      = .ok (if le then int_union_num b4 b5 b6 b7 else int_union_num b7 b6 b5 b4) :=
  extract_int_eq le rfl rfl rfl rfl

/-- The decoder on a record of 12 bytes, with every read resolved. -/
theorem extract_tiftag_record (junk : Nat → Nat) (b0 b1 b2 b3 b4 b5 b6 b7 b8 b9 b10 b11 : Nat)
    (le : Bool) :
    extract_tiftag_from_12bytes junk [b0, b1, b2, b3, b4, b5, b6, b7, b8, b9, b10, b11] le 0 =
      if le then
        if getDataSize (short_union_num b2 b3) (int_union_num b4 b5 b6 b7) = -1 then
          .error .unknownDatatype
        else .ok { TagId := short_union_num b0 b1, DataType := short_union_num b2 b3,
                   DataCount := int_union_num b4 b5 b6 b7,
                   DataOffset := int_union_num b8 b9 b10 b11 }
      else
        if getDataSize (short_union_num b3 b2) (int_union_num b7 b6 b5 b4) = -1 then
          .error .unknownDatatype
        else .ok { TagId := short_union_num b1 b0, DataType := short_union_num b3 b2,
                   DataCount := int_union_num b7 b6 b5 b4,
                   DataOffset :=
                     if getDataSize (short_union_num b3 b2) (int_union_num b7 b6 b5 b4) ≥ 4 then
                       int_union_num b11 b10 b9 b8
                     else if getDataSize (short_union_num b3 b2) (int_union_num b7 b6 b5 b4) = 2 then
                       int_union_num b9 b8 0 0
                     else if getDataSize (short_union_num b3 b2) (int_union_num b7 b6 b5 b4) = 1 then
                       int_union_num b8 0 0 0
                     else int_union_num (junk 8) (junk 9) (junk 10) (junk 11) } := by
  cases le
  · unfold extract_tiftag_from_12bytes
    simp only [readByte, Nat.zero_add, Nat.add_zero, Nat.reduceAdd, Bool.false_eq_true, if_false]
    simp only [List.getElem?_cons_succ, List.getElem?_cons_zero]
    simp only [bind, Except.bind]
    simp only [extract_short_from_2bytes, extract_int_from_4bytes, readByte, Nat.zero_add,
      Nat.add_zero, Nat.reduceAdd, Bool.false_eq_true, if_false, List.getElem?_cons_succ,
      List.getElem?_cons_zero, bind, Except.bind, pure, Except.pure]
    split_ifs <;> rfl
  · unfold extract_tiftag_from_12bytes
    simp only [readByte, Nat.zero_add, Nat.add_zero, Nat.reduceAdd, if_true]
    simp only [List.getElem?_cons_succ, List.getElem?_cons_zero]
    simp only [bind, Except.bind]
    simp only [extract_short_from_2bytes, extract_int_from_4bytes, readByte, Nat.zero_add,
      Nat.add_zero, Nat.reduceAdd, if_true, List.getElem?_cons_succ, List.getElem?_cons_zero,
      bind, Except.bind, pure, Except.pure]

/-- The decoder on a record, in terms of the type and count it reads. -/
theorem extract_tiftag_sized (junk : Nat → Nat) (b0 b1 b2 b3 b4 b5 b6 b7 b8 b9 b10 b11 : Nat)
    (le : Bool) (dataType dataCount : Nat)
    (hType : extract_short_from_2bytes [b0, b1, b2, b3, b4, b5, b6, b7, b8, b9, b10, b11] le 2
      = .ok dataType)
    (hCount : extract_int_from_4bytes [b0, b1, b2, b3, b4, b5, b6, b7, b8, b9, b10, b11] le 4
      = .ok dataCount) :
    extract_tiftag_from_12bytes junk [b0, b1, b2, b3, b4, b5, b6, b7, b8, b9, b10, b11] le 0 =
      if getDataSize dataType dataCount = -1 then .error .unknownDatatype
      else .ok {
        TagId := if le then short_union_num b0 b1 else short_union_num b1 b0
        DataType := dataType
        DataCount := dataCount
        DataOffset :=
          if le then int_union_num b8 b9 b10 b11
          else if getDataSize dataType dataCount ≥ 4 then int_union_num b11 b10 b9 b8
          else if getDataSize dataType dataCount = 2 then int_union_num b9 b8 0 0
          else if getDataSize dataType dataCount = 1 then int_union_num b8 0 0 0
          else int_union_num (junk 8) (junk 9) (junk 10) (junk 11) } := by
  rw [record_type] at hType
  rw [record_count] at hCount
  injection hType with hType
  injection hCount with hCount
  subst hType hCount
  rw [extract_tiftag_record]
  cases le <;> simp

theorem getDataSize_eq_neg_one_iff (dataType dataCount : Nat) :
    getDataSize dataType dataCount = -1 ↔
      ¬ (1 ≤ dataType ∧ dataType ≤ 12) ∨
      ((dataType = 1 ∨ dataType = 2 ∨ dataType = 6 ∨ dataType = 7) ∧
        dataCount % 4294967296 = 4294967295) := by
  by_cases h : 1 ≤ dataType ∧ dataType ≤ 12
  · obtain ⟨h1, h2⟩ := h
    interval_cases dataType <;> simp [getDataSize, toInt32_ne_neg_one_iff] <;> omega
  · simp [getDataSize_unknown _ _ h, h]

/-- Whenever the size that `getDataSize` computes is at least 4, the slot is read
as a 32-bit value in the byte order of the stream. -/
theorem tag_offset_of_size_ge_four (junk : Nat → Nat)
    (b0 b1 b2 b3 b4 b5 b6 b7 b8 b9 b10 b11 : Nat) (le : Bool) (dataType dataCount : Nat)
    (hType : extract_short_from_2bytes [b0, b1, b2, b3, b4, b5, b6, b7, b8, b9, b10, b11] le 2
      = .ok dataType)
    (hCount : extract_int_from_4bytes [b0, b1, b2, b3, b4, b5, b6, b7, b8, b9, b10, b11] le 4
      = .ok dataCount)
    (hSize : 4 ≤ getDataSize dataType dataCount) :
    ∃ tag, extract_tiftag_from_12bytes junk
        [b0, b1, b2, b3, b4, b5, b6, b7, b8, b9, b10, b11] le 0 = .ok tag ∧
      tag.DataOffset = (if le then b8 + 256 * b9 + 65536 * b10 + 16777216 * b11
        else 16777216 * b8 + 65536 * b9 + 256 * b10 + b11) := by
  rw [extract_tiftag_sized junk _ _ _ _ _ _ _ _ _ _ _ _ le dataType dataCount hType hCount]
  have hne : getDataSize dataType dataCount ≠ -1 := by omega
  rw [if_neg hne]
  refine ⟨_, rfl, ?_⟩
  cases le
  · simp only [Bool.false_eq_true, if_false, ge_iff_le, if_pos hSize, int_union_num]
    omega
  · simp only [if_true, int_union_num]

/-- The exact size decides the slot reading as long as it fits an `int`. -/
theorem tag_offset_of_exactSize_ge_four (junk : Nat → Nat)
    (b0 b1 b2 b3 b4 b5 b6 b7 b8 b9 b10 b11 : Nat) (le : Bool) (dataType dataCount : Nat)
    (hType : extract_short_from_2bytes [b0, b1, b2, b3, b4, b5, b6, b7, b8, b9, b10, b11] le 2
      = .ok dataType)
    (hCount : extract_int_from_4bytes [b0, b1, b2, b3, b4, b5, b6, b7, b8, b9, b10, b11] le 4
      = .ok dataCount)
    (hSize : 4 ≤ exactSize dataType dataCount) (hFit : exactSize dataType dataCount < 2147483648) :
    ∃ tag, extract_tiftag_from_12bytes junk
        [b0, b1, b2, b3, b4, b5, b6, b7, b8, b9, b10, b11] le 0 = .ok tag ∧
      tag.DataOffset = (if le then b8 + 256 * b9 + 65536 * b10 + 16777216 * b11
        else 16777216 * b8 + 65536 * b9 + 256 * b10 + b11) := by
  have hk := exactSize_pos_known (by omega : 0 < exactSize dataType dataCount)
  have hs : getDataSize dataType dataCount = exactSize dataType dataCount :=
    getDataSize_eq_exactSize hk.1 hk.2 hFit
  exact tag_offset_of_size_ge_four junk _ _ _ _ _ _ _ _ _ _ _ _ le dataType dataCount hType hCount
    (by omega)

/-- The decoder on a LONG of count 1 with slot bytes `[0, 0, 1, 0]`: 256 in
big-endian mode, 65536 in little-endian mode. -/
theorem tag_offset_long_example :
    (∀ junk : Nat → Nat,
      extract_tiftag_from_12bytes junk [1, 0, 0, 4, 0, 0, 0, 1, 0, 0, 1, 0] false 0
        = .ok { TagId := 256, DataType := 4, DataCount := 1, DataOffset := 256 }) ∧
    (∀ junk : Nat → Nat,
      extract_tiftag_from_12bytes junk [0, 1, 4, 0, 1, 0, 0, 0, 0, 0, 1, 0] true 0
        = .ok { TagId := 256, DataType := 4, DataCount := 1, DataOffset := 65536 }) :=
  ⟨fun _ => rfl, fun _ => rfl⟩

/-- C2, at a record the code decodes differently: big-endian, type SHORT (3),
count `0x80000001`, slot bytes `[0, 0, 1, 0]`.  The exact size `2 * 0x80000001` is
far above 4, but the 32-bit product wraps to 2, so the decoder takes the
two-byte branch and `DataOffset` is 0, not the big-endian 32-bit value 256 of
the slot. -/
theorem tag_offset_wrapped_size :
    extract_short_from_2bytes [1, 0, 0, 3, 128, 0, 0, 1, 0, 0, 1, 0] false 2 = .ok 3 ∧
    extract_int_from_4bytes [1, 0, 0, 3, 128, 0, 0, 1, 0, 0, 1, 0] false 4 = .ok 2147483649 ∧
    exactSize 3 2147483649 = 4294967298 ∧
    getDataSize 3 2147483649 = 2 ∧
    ∀ junk : Nat → Nat,
      extract_tiftag_from_12bytes junk [1, 0, 0, 3, 128, 0, 0, 1, 0, 0, 1, 0] false 0
        = .ok { TagId := 256, DataType := 3, DataCount := 2147483649, DataOffset := 0 } :=
  ⟨rfl, rfl, rfl, rfl, fun _ => rfl⟩

/-- C5, at a record the code rejects although its type is recognised: type BYTE
(1) with count `0xFFFFFFFF`, in either byte order.  The wrapped size is the
bit pattern of `-1`, the value `getDataSize` uses for an unknown type, and
the decoder aborts with the unknown-datatype error. -/
theorem tag_abort_on_known_type :
    extract_short_from_2bytes [0, 1, 1, 0, 255, 255, 255, 255, 0, 0, 0, 0] true 2 = .ok 1 ∧
    extract_int_from_4bytes [0, 1, 1, 0, 255, 255, 255, 255, 0, 0, 0, 0] true 4
      = .ok 4294967295 ∧
    (∀ junk : Nat → Nat,
      extract_tiftag_from_12bytes junk [0, 1, 1, 0, 255, 255, 255, 255, 0, 0, 0, 0] true 0
        = .error .unknownDatatype) ∧
    extract_short_from_2bytes [1, 0, 0, 1, 255, 255, 255, 255, 0, 0, 0, 0] false 2 = .ok 1 ∧
    (∀ junk : Nat → Nat,
      extract_tiftag_from_12bytes junk [1, 0, 0, 1, 255, 255, 255, 255, 0, 0, 0, 0] false 0
        = .error .unknownDatatype) :=
  ⟨rfl, rfl, fun _ => rfl, rfl, fun _ => rfl⟩

/-- The decoder aborts exactly when `getDataSize` gives `-1`: on an unknown
type, and on a one-byte type whose count is `0xFFFFFFFF`. -/
theorem tag_abort_iff (junk : Nat → Nat)
    (b0 b1 b2 b3 b4 b5 b6 b7 b8 b9 b10 b11 : Nat) (le : Bool) (dataType dataCount : Nat)
    (hType : extract_short_from_2bytes [b0, b1, b2, b3, b4, b5, b6, b7, b8, b9, b10, b11] le 2
      = .ok dataType)
    (hCount : extract_int_from_4bytes [b0, b1, b2, b3, b4, b5, b6, b7, b8, b9, b10, b11] le 4
      = .ok dataCount) :
    extract_tiftag_from_12bytes junk [b0, b1, b2, b3, b4, b5, b6, b7, b8, b9, b10, b11] le 0
        = .error .unknownDatatype ↔
      ¬ (1 ≤ dataType ∧ dataType ≤ 12) ∨
      ((dataType = 1 ∨ dataType = 2 ∨ dataType = 6 ∨ dataType = 7) ∧
        dataCount % 4294967296 = 4294967295) := by
  rw [extract_tiftag_sized junk _ _ _ _ _ _ _ _ _ _ _ _ le dataType dataCount hType hCount,
    ← getDataSize_eq_neg_one_iff]
  split_ifs with h <;> simp [h]

/-- C6: with count 1 `getDataSize` gives the element width of each of the field
types 1..12 (1, 1, 2, 4, 8, 1, 1, 2, 4, 8, 4, 8), and for a type code outside
1..12 it gives `-1` whatever the count. -/
theorem getDataSize_table :
    (getDataSize 1 1 = 1 ∧ getDataSize 2 1 = 1 ∧ getDataSize 3 1 = 2 ∧ getDataSize 4 1 = 4 ∧
      getDataSize 5 1 = 8 ∧ getDataSize 6 1 = 1 ∧ getDataSize 7 1 = 1 ∧ getDataSize 8 1 = 2 ∧
      getDataSize 9 1 = 4 ∧ getDataSize 10 1 = 8 ∧ getDataSize 11 1 = 4 ∧
      getDataSize 12 1 = 8) ∧
    ∀ dataType dataCount : Nat, ¬ (1 ≤ dataType ∧ dataType ≤ 12) →
      getDataSize dataType dataCount = -1 :=
  ⟨⟨rfl, rfl, rfl, rfl, rfl, rfl, rfl, rfl, rfl, rfl, rfl, rfl⟩, getDataSize_unknown⟩

/-- Instances of `getDataSize_table` at the codes 13, 0 and 65535. -/
theorem getDataSize_table_witness :
    getDataSize 13 4294967295 = -1 ∧ getDataSize 0 1 = -1 ∧ getDataSize 65535 7 = -1 :=
  ⟨getDataSize_table.2 13 4294967295 (by decide), getDataSize_table.2 0 1 (by decide),
    getDataSize_table.2 65535 7 (by decide)⟩

/-- C3 fails in little-endian mode: type BYTE (1), count 1, slot bytes
`[42, 1, 0, 0]`.  The exact size is 1, yet `DataOffset` is 298, the 32-bit
little-endian value of the whole slot, not the value 42 of slot byte 8 with
the other bytes zero-filled. -/
theorem tag_byte_value_little_endian_padding :
    extract_short_from_2bytes [0, 1, 1, 0, 1, 0, 0, 0, 42, 1, 0, 0] true 2 = .ok 1 ∧
    extract_int_from_4bytes [0, 1, 1, 0, 1, 0, 0, 0, 42, 1, 0, 0] true 4 = .ok 1 ∧
    exactSize 1 1 = 1 ∧
    ∀ junk : Nat → Nat,
      extract_tiftag_from_12bytes junk [0, 1, 1, 0, 1, 0, 0, 0, 42, 1, 0, 0] true 0
        = .ok { TagId := 256, DataType := 1, DataCount := 1, DataOffset := 298 } :=
  ⟨rfl, rfl, rfl, fun _ => rfl⟩

/-- C3, amended: for a record whose exact size is 1, the decoder returns an entry;
in big-endian mode its `DataOffset` is slot byte 8 alone, whatever slot bytes
9..11 hold; in little-endian mode it is the 32-bit little-endian value of all
four slot bytes, which is slot byte 8 alone when slot bytes 9..11 are zero. -/
theorem tag_value_of_size_one (junk : Nat → Nat)
    (b0 b1 b2 b3 b4 b5 b6 b7 b8 b9 b10 b11 : Nat) (le : Bool) (dataType dataCount : Nat)
    (hType : extract_short_from_2bytes [b0, b1, b2, b3, b4, b5, b6, b7, b8, b9, b10, b11] le 2
      = .ok dataType)
    (hCount : extract_int_from_4bytes [b0, b1, b2, b3, b4, b5, b6, b7, b8, b9, b10, b11] le 4
      = .ok dataCount)
    (hSize : exactSize dataType dataCount = 1) :
    ∃ tag, extract_tiftag_from_12bytes junk
        [b0, b1, b2, b3, b4, b5, b6, b7, b8, b9, b10, b11] le 0 = .ok tag ∧
      tag.DataOffset = (if le then b8 + 256 * b9 + 65536 * b10 + 16777216 * b11 else b8) ∧
      (b9 = 0 ∧ b10 = 0 ∧ b11 = 0 → tag.DataOffset = b8) := by
  have hk := exactSize_pos_known (by omega : 0 < exactSize dataType dataCount)
  have hs : getDataSize dataType dataCount = exactSize dataType dataCount :=
    getDataSize_eq_exactSize hk.1 hk.2 (by omega)
  rw [hSize] at hs
  rw [extract_tiftag_sized junk _ _ _ _ _ _ _ _ _ _ _ _ le dataType dataCount hType hCount, hs]
  refine ⟨_, rfl, ?_, ?_⟩
  · cases le <;> simp [int_union_num]
  · rintro ⟨rfl, rfl, rfl⟩
    cases le <;> simp [int_union_num]

/-- An instance of `tag_value_of_size_one`: big-endian, type BYTE, count 1, slot
bytes `[42, 7, 7, 7]`. -/
theorem tag_value_of_size_one_witness :
    exactSize 1 1 = 1 ∧
    ∃ tag, extract_tiftag_from_12bytes (fun _ => 0) [1, 0, 0, 1, 0, 0, 0, 1, 42, 7, 7, 7] false 0
        = .ok tag ∧
      tag.DataOffset = (if false then 42 + 256 * 7 + 65536 * 7 + 16777216 * 7 else 42) ∧
      ((7 : Nat) = 0 ∧ (7 : Nat) = 0 ∧ (7 : Nat) = 0 → tag.DataOffset = 42) :=
  ⟨rfl, tag_value_of_size_one (fun _ => 0) 1 0 0 1 0 0 0 1 42 7 7 7 false 1 1 rfl rfl rfl⟩

/-- C4 fails in little-endian mode: type SHORT (3), count 1, slot bytes
`[0x34, 0x12, 1, 0]`.  The exact size is 2, yet `DataOffset` is
`70196 = 0x00011234`: its high-order 16 bits are slot bytes 10 and 11, not
zero. -/
theorem tag_short_value_little_endian_padding :
    extract_short_from_2bytes [0, 1, 3, 0, 1, 0, 0, 0, 52, 18, 1, 0] true 2 = .ok 3 ∧
    extract_int_from_4bytes [0, 1, 3, 0, 1, 0, 0, 0, 52, 18, 1, 0] true 4 = .ok 1 ∧
    exactSize 3 1 = 2 ∧
    ∀ junk : Nat → Nat,
      extract_tiftag_from_12bytes junk [0, 1, 3, 0, 1, 0, 0, 0, 52, 18, 1, 0] true 0
        = .ok { TagId := 256, DataType := 3, DataCount := 1, DataOffset := 70196 } :=
  ⟨rfl, rfl, rfl, fun _ => rfl⟩

/-- C4, amended: for a record whose exact size is 2, the decoder returns an entry;
in big-endian mode its `DataOffset` is the 16-bit big-endian value of slot
bytes 8 and 9 with the high-order 16 bits zero, whatever slot bytes 10 and 11
hold; in little-endian mode it is the 32-bit little-endian value of all four
slot bytes, which is the 16-bit little-endian value of slot bytes 8 and 9 when
slot bytes 10 and 11 are zero. -/
theorem tag_value_of_size_two (junk : Nat → Nat)
    (b0 b1 b2 b3 b4 b5 b6 b7 b8 b9 b10 b11 : Nat) (le : Bool) (dataType dataCount : Nat)
    (hType : extract_short_from_2bytes [b0, b1, b2, b3, b4, b5, b6, b7, b8, b9, b10, b11] le 2
      = .ok dataType)
    (hCount : extract_int_from_4bytes [b0, b1, b2, b3, b4, b5, b6, b7, b8, b9, b10, b11] le 4
      = .ok dataCount)
    (hSize : exactSize dataType dataCount = 2) :
    ∃ tag, extract_tiftag_from_12bytes junk
        [b0, b1, b2, b3, b4, b5, b6, b7, b8, b9, b10, b11] le 0 = .ok tag ∧
      tag.DataOffset = (if le then b8 + 256 * b9 + 65536 * b10 + 16777216 * b11
        else 256 * b8 + b9) ∧
      (b10 = 0 ∧ b11 = 0 → tag.DataOffset = (if le then b8 + 256 * b9 else 256 * b8 + b9)) := by
  have hk := exactSize_pos_known (by omega : 0 < exactSize dataType dataCount)
  have hs : getDataSize dataType dataCount = exactSize dataType dataCount :=
    getDataSize_eq_exactSize hk.1 hk.2 (by omega)
  rw [hSize] at hs
  rw [extract_tiftag_sized junk _ _ _ _ _ _ _ _ _ _ _ _ le dataType dataCount hType hCount, hs]
  refine ⟨_, rfl, ?_, ?_⟩
  · cases le <;> simp [int_union_num]
    omega
  · rintro ⟨rfl, rfl⟩
    cases le <;> simp [int_union_num]
    omega

/-- An instance of `tag_value_of_size_two`: big-endian, type SHORT, count 1, slot
bytes `[0x12, 0x34, 7, 7]`. -/
theorem tag_value_of_size_two_witness :
    exactSize 3 1 = 2 ∧
    ∃ tag, extract_tiftag_from_12bytes (fun _ => 0) [1, 0, 0, 3, 0, 0, 0, 1, 18, 52, 7, 7] false 0
        = .ok tag ∧
      tag.DataOffset = (if false then 18 + 256 * 52 + 65536 * 7 + 16777216 * 7
        else 256 * 18 + 52) ∧
      ((7 : Nat) = 0 ∧ (7 : Nat) = 0 →
        tag.DataOffset = (if false then 18 + 256 * 52 else 256 * 18 + 52)) :=
  ⟨rfl, tag_value_of_size_two (fun _ => 0) 1 0 0 3 0 0 0 1 18 52 7 7 false 3 1 rfl rfl rfl⟩


/-- C7, at fields whose round trip the code breaks: tagId 256, type BYTE (1), count
`0xFFFFFFFF`.  Laid out little-endian and decoded little-endian, or laid out
big-endian and decoded big-endian, the record is rejected with the
unknown-datatype error instead of giving back the three fields. -/
theorem tag_roundtrip_aborts_at_max_count :
    (∀ junk : Nat → Nat,
      extract_tiftag_from_12bytes junk (layoutLE 256 1 4294967295 [0, 0, 0, 0]) true 0
        = .error .unknownDatatype) ∧
    (∀ junk : Nat → Nat,
      extract_tiftag_from_12bytes junk (layoutBE 256 1 4294967295 [0, 0, 0, 0]) false 0
        = .error .unknownDatatype) :=
  ⟨fun _ => rfl, fun _ => rfl⟩

/-- Round trip of the first 8 record bytes whenever the decoder does not abort. -/
theorem tag_roundtrip (junk : Nat → Nat) (tagId fieldType count s0 s1 s2 s3 : Nat)
    (hTag : tagId < 65536) (hType : fieldType < 65536) (hCount : count < 4294967296)
    (hSize : getDataSize fieldType count ≠ -1) :
    (∃ tag, extract_tiftag_from_12bytes junk
        (layoutLE tagId fieldType count [s0, s1, s2, s3]) true 0 = .ok tag ∧
      tag.TagId = tagId ∧ tag.DataType = fieldType ∧ tag.DataCount = count) ∧
    (∃ tag, extract_tiftag_from_12bytes junk
        (layoutBE tagId fieldType count [s0, s1, s2, s3]) false 0 = .ok tag ∧
      tag.TagId = tagId ∧ tag.DataType = fieldType ∧ tag.DataCount = count) := by
  have e1 : short_union_num (tagId % 256) (tagId / 256 % 256) = tagId := by
    unfold short_union_num; omega
  have e2 : short_union_num (fieldType % 256) (fieldType / 256 % 256) = fieldType := by
    unfold short_union_num; omega
  have e3 : int_union_num (count % 256) (count / 256 % 256) (count / 65536 % 256)
      (count / 16777216 % 256) = count := by
    unfold int_union_num; omega
  constructor
  · simp only [layoutLE, List.cons_append, List.nil_append]
    rw [extract_tiftag_record, if_pos rfl, e1, e2, e3, if_neg hSize]
    exact ⟨_, rfl, rfl, rfl, rfl⟩
  · simp only [layoutBE, List.cons_append, List.nil_append]
    rw [extract_tiftag_record, if_neg (by decide), e1, e2, e3, if_neg hSize]
    exact ⟨_, rfl, rfl, rfl, rfl⟩

/-- C8: `extract_short_from_2bytes` gives `bytes[start] + 256 * bytes[start+1]` in
little-endian mode and `256 * bytes[start] + bytes[start+1]` in big-endian
mode; `extract_int_from_4bytes` gives the sum of `bytes[start+i] * 256^i` in
little-endian mode and of `bytes[start+i] * 256^(3-i)` in big-endian mode; the
big-endian reading of four bytes is the little-endian reading of the bytes
reversed. -/
theorem extract_readings (bytes : List Nat) (start : Nat) :
    (∀ x y : Nat, bytes[start]? = some x → bytes[start + 1]? = some y →
      extract_short_from_2bytes bytes true start = .ok (x + 256 * y) ∧
      extract_short_from_2bytes bytes false start = .ok (256 * x + y)) ∧
    (∀ x y z w : Nat, bytes[start]? = some x → bytes[start + 1]? = some y →
      bytes[start + 2]? = some z → bytes[start + 3]? = some w →
      extract_int_from_4bytes bytes true start
        = .ok (x * 256 ^ 0 + y * 256 ^ 1 + z * 256 ^ 2 + w * 256 ^ 3) ∧
      extract_int_from_4bytes bytes false start
        = .ok (x * 256 ^ 3 + y * 256 ^ 2 + z * 256 ^ 1 + w * 256 ^ 0) ∧
      extract_int_from_4bytes bytes false start
        = extract_int_from_4bytes [w, z, y, x] true 0) := by
  refine ⟨fun x y hx hy => ⟨?_, ?_⟩, fun x y z w hx hy hz hw => ⟨?_, ?_, ?_⟩⟩
  · rw [extract_short_eq true hx hy]; rfl
  · rw [extract_short_eq false hx hy]
    simp only [Bool.false_eq_true, if_false, short_union_num]
    congr 1; omega
  · rw [extract_int_eq true hx hy hz hw]
    simp only [if_true, int_union_num]
    congr 1; omega
  · rw [extract_int_eq false hx hy hz hw]
    simp only [Bool.false_eq_true, if_false, int_union_num]
    congr 1; omega
  · rw [extract_int_eq false hx hy hz hw]
    rfl

/-- An instance of `extract_readings`: the bytes `1, 2, 3, 4` at offset 1. -/
theorem extract_readings_witness :
    (extract_short_from_2bytes [9, 1, 2, 3, 4] true 1 = .ok (1 + 256 * 2) ∧
      extract_short_from_2bytes [9, 1, 2, 3, 4] false 1 = .ok (256 * 1 + 2)) ∧
    (extract_int_from_4bytes [9, 1, 2, 3, 4] true 1
        = .ok (1 * 256 ^ 0 + 2 * 256 ^ 1 + 3 * 256 ^ 2 + 4 * 256 ^ 3) ∧
      extract_int_from_4bytes [9, 1, 2, 3, 4] false 1
        = .ok (1 * 256 ^ 3 + 2 * 256 ^ 2 + 3 * 256 ^ 1 + 4 * 256 ^ 0) ∧
      extract_int_from_4bytes [9, 1, 2, 3, 4] false 1
        = extract_int_from_4bytes [4, 3, 2, 1] true 0) :=
  ⟨(extract_readings [9, 1, 2, 3, 4] 1).1 1 2 rfl rfl,
    (extract_readings [9, 1, 2, 3, 4] 1).2 1 2 3 4 rfl rfl rfl rfl⟩

/-! ## Loops and pixel accesses -/

/-- Invariant rule for `forLoop`: an invariant that every iteration keeps, and
under which no iteration aborts, holds at the end, and the loop returns. -/
theorem forLoop_invariant {σ : Type} (body : Int → σ → Except Abort σ)
    (Inv : Int → σ → Prop) :
    ∀ (n : Nat) (i : Int) (s : σ), Inv i s →
      (∀ j t, i ≤ j → j < i + n → Inv j t → ∃ t1, body j t = .ok t1 ∧ Inv (j + 1) t1) →
      ∃ t, forLoop body n i s = .ok t ∧ Inv (i + n) t := by
  intro n
  induction n with
  | zero =>
    intro i s h0 _
    exact ⟨s, rfl, by simpa using h0⟩
  | succ n ih =>
    intro i s h0 hstep
    obtain ⟨s1, hb, h1⟩ := hstep i s (le_refl i) (by push_cast; omega) h0
    obtain ⟨t, ht, hInv⟩ := ih (i + 1) s1 h1 (fun j t hj hj2 hI =>
      hstep j t (by omega) (by push_cast; omega) hI)
    refine ⟨t, ?_, ?_⟩
    · simp only [forLoop, hb]
      exact ht
    · have e : i + ((n + 1 : Nat) : Int) = i + 1 + (n : Int) := by push_cast; ring
      rw [e]
      exact hInv

theorem readPixel_ok {p : List Nat} {pos : Int} (h0 : 0 ≤ pos) (h1 : pos < p.length) :
    ∃ v : Nat, p[pos.toNat]? = some v ∧ readPixel p pos = .ok (v : Int) := by
  have hlt : pos.toNat < p.length := by omega
  refine ⟨p[pos.toNat], List.getElem?_eq_getElem hlt, ?_⟩
  simp [readPixel, h0, List.getElem?_eq_getElem hlt]

theorem writePixel_ok {p : List Nat} {pos : Int} (v : Int) (h0 : 0 ≤ pos)
    (h1 : pos < p.length) :
    writePixel p pos v = .ok (p.set pos.toNat (toByte v)) := by
  have hlt : pos.toNat < p.length := by omega
  simp [writePixel, h0, hlt]

theorem diffuse_ok {p : List Nat} {pos : Int} (share : Int) (h0 : 0 ≤ pos)
    (h1 : pos < p.length) :
    ∃ v : Nat, p[pos.toNat]? = some v ∧
      diffuse p pos share = .ok (p.set pos.toNat (toByte (clampInt ((v : Int) + share)))) := by
  obtain ⟨v, hv, hr⟩ := readPixel_ok h0 h1
  refine ⟨v, hv, ?_⟩
  simp only [diffuse, hr, bind, Except.bind]
  exact writePixel_ok _ h0 h1

theorem toByte_clampInt (n : Int) :
    toByte (clampInt n) = if n < 0 then 0 else if n > 255 then 255 else n.toNat := by
  unfold toByte clampInt toChar
  split_ifs <;> omega


theorem set_of_getElem? {p : List Nat} {i v : Nat} (h : p[i]? = some v) : p.set i v = p := by
  apply List.ext_getElem?
  intro j
  rw [List.getElem?_set]
  split_ifs with h1 h2
  · subst h1; exact h.symm
  · subst h1
    rw [List.getElem?_eq_none (by omega)] at h
    cases h
  · rfl

/-- Every row lies inside an array of `w * h` entries. -/
theorem row_bounds {w h y : Int} (k : Int) (hw : 0 ≤ w) (hy : 0 ≤ y) (hyk : y + k ≤ h) :
    0 ≤ y * w ∧ y * w + k * w ≤ w * h := by
  refine ⟨mul_nonneg hy hw, ?_⟩
  have h1 : (y + k) * w ≤ h * w := mul_le_mul_of_nonneg_right hyk hw
  have h2 : (y + k) * w = y * w + k * w := by ring
  have h3 : h * w = w * h := by ring
  omega

theorem diffuse_zero_bilevel {p : List Nat} {pos : Int} (hp : Bilevel p) (h0 : 0 ≤ pos)
    (h1 : pos < p.length) : diffuse p pos 0 = .ok p := by
  obtain ⟨v, hv, hd⟩ := diffuse_ok 0 h0 h1
  rw [hd]
  have hb : toByte (clampInt ((v : Int) + 0)) = v := by
    rw [toByte_clampInt]
    rcases hp v (List.getElem?_mem hv) with rfl | rfl <;> simp
  rw [hb, set_of_getElem? hv]

theorem ditherPixel_bilevel {p : List Nat} {w h y x : Int} (hp : Bilevel p)
    (hlen : (p.length : Int) = w * h) (hx0 : 0 ≤ x) (hxw : x < w) (hy0 : 0 ≤ y) (hyh : y < h) :
    ditherPixel w h y x p = .ok p := by
  have hw : 0 ≤ w := by omega
  obtain ⟨hb0, hb1⟩ := row_bounds 1 hw hy0 (by omega : y + 1 ≤ h)
  have hb2 : y + 1 ≠ h → y * w + 2 * w ≤ w * h := fun hne =>
    (row_bounds 2 hw hy0 (by omega : y + 2 ≤ h)).2
  have hc0 : 0 ≤ y * w + x := by omega
  have hc1 : y * w + x < p.length := by omega
  obtain ⟨v, hv, hr⟩ := readPixel_ok hc0 hc1
  have hq : (if (v : Int) < 128 then (0 : Int) else 255) = (v : Int) := by
    rcases hp v (List.getElem?_mem hv) with rfl | rfl <;> simp
  have hwr : writePixel p (y * w + x) (v : Int) = .ok p := by
    rw [writePixel_ok _ hc0 hc1]
    have : toByte (v : Int) = v := by
      unfold toByte
      rcases hp v (List.getElem?_mem hv) with rfl | rfl <;> simp
    rw [this, set_of_getElem? hv]
  have hs0 : (0 : Int) >>> 4 = 0 := rfl
  have d1 : x < w - 1 → diffuse p (y * w + x + 1) 0 = .ok p := fun _ =>
    diffuse_zero_bilevel hp (by omega) (by omega)
  have d2 : ¬ y + 1 = h → x > 0 → diffuse p (y * w + x + w - 1) 0 = .ok p := fun hl _ =>
    diffuse_zero_bilevel hp (by omega) (by have := hb2 hl; omega)
  have d3 : ¬ y + 1 = h → diffuse p (y * w + x + w) 0 = .ok p := fun hl =>
    diffuse_zero_bilevel hp (by omega) (by have := hb2 hl; omega)
  have d4 : ¬ y + 1 = h → x + 1 < w → diffuse p (y * w + x + w + 1) 0 = .ok p := fun hl _ =>
    diffuse_zero_bilevel hp (by omega) (by have := hb2 hl; omega)
  unfold ditherPixel
  simp only [hr, bind, Except.bind, hq, sub_self, zero_mul, hs0, hwr, pure, Except.pure]
  split_ifs <;> simp only [d1, d2, d3, d4, not_false_eq_true, *]

theorem done_set_later {p : List Nat} {k : Int} {j : Nat} (v : Nat) (hD : Done p k)
    (hj : k ≤ (j : Int)) : Done (p.set j v) k := by
  intro i hi u hu
  rw [List.getElem?_set_ne (by omega)] at hu
  exact hD i hi u hu

theorem done_set_next {p : List Nat} {k : Int} {j : Nat} {v : Nat} (hD : Done p k)
    (hj : (j : Int) = k) (hv : v = 0 ∨ v = 255) : Done (p.set j v) (k + 1) := by
  intro i hi u hu
  by_cases hij : j = i
  · subst hij
    rw [List.getElem?_set] at hu
    simp only [if_true] at hu
    split_ifs at hu
    · cases hu; exact hv
  · rw [List.getElem?_set_ne hij] at hu
    exact hD i (by omega) u hu

theorem diffuse_keeps {p : List Nat} {k pos : Int} (share : Int) (hD : Done p k)
    (h0 : 0 ≤ pos) (h1 : pos < p.length) (hk : k ≤ pos) :
    ∃ p1, diffuse p pos share = .ok p1 ∧ p1.length = p.length ∧ Done p1 k := by
  obtain ⟨v, _, hd⟩ := diffuse_ok share h0 h1
  exact ⟨_, hd, List.length_set _ _ _, done_set_later _ hD (by omega)⟩

theorem diffuse_if_keeps {p : List Nat} {k pos : Int} (c : Prop) [Decidable c] (share : Int)
    (hD : Done p k) (hb : c → 0 ≤ pos ∧ pos < p.length ∧ k ≤ pos) :
    ∃ p1, (if c then diffuse p pos share else Except.ok p) = .ok p1 ∧
      p1.length = p.length ∧ Done p1 k := by
  by_cases hc : c
  · rw [if_pos hc]
    exact diffuse_keeps share hD (hb hc).1 (hb hc).2.1 (hb hc).2.2
  · rw [if_neg hc]
    exact ⟨p, rfl, rfl, hD⟩

theorem bind_ok {ε α β : Type} (a : α) (f : α → Except ε β) :
    (Except.ok a : Except ε α).bind f = f a := rfl

/-- The body of the inner loop, stage by stage. -/
theorem ditherPixel_eq (w h y x : Int) (p : List Nat) :
    ditherPixel w h y x p =
      (readPixel p (y * w + x)).bind fun inColor =>
      (writePixel p (y * w + x) (if inColor < 128 then 0 else 255)).bind fun p1 =>
      (if x < w - 1 then
          diffuse p1 (y * w + x + 1)
            (((inColor - (if inColor < 128 then 0 else 255)) * 7) >>> 4)
        else Except.ok p1).bind fun p2 =>
      if y + 1 = h then Except.ok p2
      else
        (if x > 0 then
            diffuse p2 (y * w + x + w - 1)
              (((inColor - (if inColor < 128 then 0 else 255)) * 3) >>> 4)
          else Except.ok p2).bind fun p3 =>
        (diffuse p3 (y * w + x + w)
            (((inColor - (if inColor < 128 then 0 else 255)) * 5) >>> 4)).bind fun p4 =>
        if x + 1 < w then
          diffuse p4 (y * w + x + w + 1)
            (((inColor - (if inColor < 128 then 0 else 255)) * 1) >>> 4)
        else Except.ok p4 := by
  unfold ditherPixel
  by_cases h1 : x < w - 1 <;> by_cases h2 : x > 0 <;>
    simp only [h1, h2, if_true, if_false, bind, pure, Except.pure, Except.bind]

theorem ditherPixel_done {p : List Nat} {w h y x : Int}
    (hlen : (p.length : Int) = w * h) (hx0 : 0 ≤ x) (hxw : x < w) (hy0 : 0 ≤ y) (hyh : y < h)
    (hD : Done p (y * w + x)) :
    ∃ p1, ditherPixel w h y x p = .ok p1 ∧ p1.length = p.length ∧
      Done p1 (y * w + x + 1) := by
  have hw : 0 ≤ w := by omega
  obtain ⟨hb0, hb1⟩ := row_bounds 1 hw hy0 (by omega : y + 1 ≤ h)
  have hb2 : y + 1 ≠ h → y * w + 2 * w ≤ w * h := fun hne =>
    (row_bounds 2 hw hy0 (by omega : y + 2 ≤ h)).2
  have hc0 : 0 ≤ y * w + x := by omega
  have hc1 : y * w + x < p.length := by omega
  obtain ⟨v, hv, hr⟩ := readPixel_ok hc0 hc1
  rw [ditherPixel_eq, hr, bind_ok, writePixel_ok _ hc0 hc1, bind_ok]
  have hq : toByte (if (v : Int) < 128 then 0 else 255) = 0 ∨
      toByte (if (v : Int) < 128 then 0 else 255) = 255 := by
    split_ifs
    · left; rfl
    · right; rfl
  have D1 : Done (p.set (y * w + x).toNat (toByte (if (v : Int) < 128 then 0 else 255)))
      (y * w + x + 1) := done_set_next hD (by omega) hq
  have l1 : (p.set (y * w + x).toNat (toByte (if (v : Int) < 128 then 0 else 255))).length
      = p.length := List.length_set _ _ _
  obtain ⟨p2, e2, l2, D2⟩ := diffuse_if_keeps (x < w - 1)
    ((((v : Int) - (if (v : Int) < 128 then 0 else 255)) * 7) >>> 4) D1
    (fun _ => ⟨by omega, by omega, by omega⟩ :
      x < w - 1 → 0 ≤ y * w + x + 1 ∧ y * w + x + 1 <
        ((p.set (y * w + x).toNat (toByte (if (v : Int) < 128 then 0 else 255))).length : Int)
        ∧ y * w + x + 1 ≤ y * w + x + 1)
  rw [e2, bind_ok]
  by_cases hlast : y + 1 = h
  · rw [if_pos hlast]
    exact ⟨p2, rfl, by omega, D2⟩
  · rw [if_neg hlast]
    have hb2 := hb2 hlast
    obtain ⟨p3, e3, l3, D3⟩ := diffuse_if_keeps (x > 0)
      ((((v : Int) - (if (v : Int) < 128 then 0 else 255)) * 3) >>> 4) D2
      (fun _ => ⟨by omega, by omega, by omega⟩ :
        x > 0 → 0 ≤ y * w + x + w - 1 ∧ y * w + x + w - 1 < (p2.length : Int)
          ∧ y * w + x + 1 ≤ y * w + x + w - 1)
    rw [e3, bind_ok]
    obtain ⟨p4, e4, l4, D4⟩ := diffuse_keeps
      ((((v : Int) - (if (v : Int) < 128 then 0 else 255)) * 5) >>> 4) D3
      (by omega : 0 ≤ y * w + x + w) (by omega) (by omega)
    rw [e4, bind_ok]
    obtain ⟨p5, e5, l5, D5⟩ := diffuse_if_keeps (x + 1 < w)
      ((((v : Int) - (if (v : Int) < 128 then 0 else 255)) * 1) >>> 4) D4
      (fun _ => ⟨by omega, by omega, by omega⟩ :
        x + 1 < w → 0 ≤ y * w + x + w + 1 ∧ y * w + x + w + 1 < (p4.length : Int)
          ∧ y * w + x + 1 ≤ y * w + x + w + 1)
    exact ⟨p5, e5, by omega, D5⟩

/-- C1: for every width and height that are at least 0 and every array of
`width * height` entries, `floydSteinbergDither` returns, the array it leaves
still has `width * height` entries, and each of them is 0 or 255. -/
theorem floydSteinbergDither_output_bilevel (p : List Nat) (w h : Int) (hw : 0 ≤ w)
    (hh : 0 ≤ h) (hlen : (p.length : Int) = w * h) :
    ∃ r, floydSteinbergDither p w h = .ok r ∧ (r.length : Int) = w * h ∧
      ∀ v ∈ r, v = 0 ∨ v = 255 := by
  obtain ⟨r, hr, hl, hD⟩ := forLoop_invariant
    (fun y rows => forLoop (fun x row => ditherPixel w h y x row) w.toNat 0 rows)
    (fun y s => s.length = p.length ∧ Done s (y * w)) h.toNat 0 p
    ⟨rfl, fun i hi => by omega⟩
    (fun y s hy0 hyh hI => by
      obtain ⟨t, ht, hl, hD⟩ := forLoop_invariant (fun x row => ditherPixel w h y x row)
        (fun x s => s.length = p.length ∧ Done s (y * w + x)) w.toNat 0 s
        ⟨hI.1, by simpa using hI.2⟩
        (fun x s hx0 hxw hJ => by
          obtain ⟨s1, e1, l1, D1⟩ := ditherPixel_done (by rw [hJ.1]; exact hlen) hx0
            (by omega) hy0 (by omega) hJ.2
          exact ⟨s1, e1, by omega, by
            have e : y * w + (x + 1) = y * w + x + 1 := by ring
            rw [e]; exact D1⟩)
      refine ⟨t, ht, hl, ?_⟩
      have e : (y + 1) * w = y * w + (0 + (w.toNat : Int)) := by
        rw [Int.toNat_of_nonneg hw]; ring
      rw [e]; exact hD)
  refine ⟨r, hr, by omega, ?_⟩
  intro v hv
  obtain ⟨i, hi⟩ := List.getElem?_of_mem hv
  have hlt : i < r.length := by
    by_contra hc
    rw [List.getElem?_eq_none (by omega)] at hi
    cases hi
  have e : (0 + (h.toNat : Int)) * w = w * h := by
    rw [Int.toNat_of_nonneg hh]; ring
  rw [e] at hD
  exact hD i (by omega) v hi

/-- An instance of `floydSteinbergDither_output_bilevel`: a raster of 3 columns and
2 rows. -/
theorem floydSteinbergDither_output_bilevel_witness :
    (0 : Int) ≤ 3 ∧ (0 : Int) ≤ 2 ∧
    (([10, 200, 130, 127, 128, 255] : List Nat).length : Int) = 3 * 2 ∧
    ∃ r, floydSteinbergDither [10, 200, 130, 127, 128, 255] 3 2 = .ok r ∧
      (r.length : Int) = 3 * 2 ∧ ∀ v ∈ r, v = 0 ∨ v = 255 :=
  ⟨by decide, by decide, by decide,
    floydSteinbergDither_output_bilevel [10, 200, 130, 127, 128, 255] 3 2 (by decide)
      (by decide) (by decide)⟩

/-- C9: for every width and height and every array of `width * height` entries
that are all 0 or 255, `floydSteinbergDither` returns the array unchanged; so
dithering a dithered raster again changes nothing. -/
theorem floydSteinbergDither_bilevel_fixed (p : List Nat) (w h : Int)
    (hlen : (p.length : Int) = w * h) (hp : ∀ v ∈ p, v = 0 ∨ v = 255) :
    floydSteinbergDither p w h = .ok p := by
  obtain ⟨r, hr, hI⟩ := forLoop_invariant
    (fun y rows => forLoop (fun x row => ditherPixel w h y x row) w.toNat 0 rows)
    (fun _ s => s = p) h.toNat 0 p rfl
    (fun y s hy0 hyh hI => by
      obtain ⟨t, ht, hJ⟩ := forLoop_invariant (fun x row => ditherPixel w h y x row)
        (fun _ s => s = p) w.toNat 0 s hI
        (fun x s hx0 hxw hJ => by
          subst hJ
          exact ⟨s, ditherPixel_bilevel hp hlen hx0 (by omega) hy0 (by omega), rfl⟩)
      exact ⟨t, ht, hJ⟩)
  rw [hI] at hr
  exact hr

/-- An instance of `floydSteinbergDither_bilevel_fixed`: a bilevel raster of 2
columns and 3 rows. -/
theorem floydSteinbergDither_bilevel_fixed_witness :
    floydSteinbergDither [0, 255, 255, 0, 255, 255] 2 3 = .ok [0, 255, 255, 0, 255, 255] :=
  floydSteinbergDither_bilevel_fixed [0, 255, 255, 0, 255, 255] 2 3 (by decide) (by decide)

/-- C10: on the 2x2 raster with rows `[100, 150]` and `[200, 50]`,
`floydSteinbergDither` produces the rows `[0, 255]` and `[255, 0]`. -/
theorem floydSteinbergDither_two_by_two :
    floydSteinbergDither [100, 150, 200, 50] 2 2 = .ok [0, 255, 255, 0] := rfl


/-! ## The reading part of `main`: header, directory, descriptor -/

/-- C13, at a record whose entry the code leaves undetermined: big-endian, type
ASCII (2), count 3 (total size 3).  No branch of the big-endian case assigns
`alpha[8]`..`alpha[11]`, so `DataOffset` is whatever the union held before
the call, and two runs on the same record that start from different contents
give different entries. -/
theorem tag_offset_unassigned :
    extract_short_from_2bytes [1, 14, 0, 2, 0, 0, 0, 3, 97, 98, 0, 0] false 2 = .ok 2 ∧
    extract_int_from_4bytes [1, 14, 0, 2, 0, 0, 0, 3, 97, 98, 0, 0] false 4 = .ok 3 ∧
    getDataSize 2 3 = 3 ∧
    (∀ junk : Nat → Nat,
      extract_tiftag_from_12bytes junk [1, 14, 0, 2, 0, 0, 0, 3, 97, 98, 0, 0] false 0
        = .ok { TagId := 270, DataType := 2, DataCount := 3,
                DataOffset := int_union_num (junk 8) (junk 9) (junk 10) (junk 11) }) ∧
    extract_tiftag_from_12bytes (fun _ => 0) [1, 14, 0, 2, 0, 0, 0, 3, 97, 98, 0, 0] false 0
      ≠ extract_tiftag_from_12bytes (fun _ => 1) [1, 14, 0, 2, 0, 0, 0, 3, 97, 98, 0, 0] false 0 := by
  refine ⟨rfl, rfl, rfl, fun _ => rfl, ?_⟩
  intro h
  have h1 : (Except.ok { TagId := 270, DataType := 2, DataCount := 3, DataOffset := 0 }
      : Except Abort TIFTAG)
      = Except.ok { TagId := 270, DataType := 2, DataCount := 3, DataOffset := 16843009 } := h
  injection h1 with h2
  injection h2 with _ _ _ h3
  exact absurd h3 (by decide)

/-- Where the decoder assigns `alpha[8]`..`alpha[11]`, the entry does not depend on
what the union held before: in little-endian mode, and in big-endian mode for a
size of 1, 2 or at least 4, and when the record is rejected. -/
theorem tag_independent_of_junk (junk1 junk2 : Nat → Nat)
    (b0 b1 b2 b3 b4 b5 b6 b7 b8 b9 b10 b11 : Nat) (le : Bool) (dataType dataCount : Nat)
    (hType : extract_short_from_2bytes [b0, b1, b2, b3, b4, b5, b6, b7, b8, b9, b10, b11] le 2
      = .ok dataType)
    (hCount : extract_int_from_4bytes [b0, b1, b2, b3, b4, b5, b6, b7, b8, b9, b10, b11] le 4
      = .ok dataCount)
    (hSize : le = true ∨ getDataSize dataType dataCount = -1 ∨
      4 ≤ getDataSize dataType dataCount ∨ getDataSize dataType dataCount = 2 ∨
      getDataSize dataType dataCount = 1) :
    extract_tiftag_from_12bytes junk1 [b0, b1, b2, b3, b4, b5, b6, b7, b8, b9, b10, b11] le 0
      = extract_tiftag_from_12bytes junk2 [b0, b1, b2, b3, b4, b5, b6, b7, b8, b9, b10, b11]
          le 0 := by
  rw [extract_tiftag_sized junk1 _ _ _ _ _ _ _ _ _ _ _ _ le dataType dataCount hType hCount,
    extract_tiftag_sized junk2 _ _ _ _ _ _ _ _ _ _ _ _ le dataType dataCount hType hCount]
  rcases hSize with h | h | h | h | h
  · subst h; rfl
  · rw [if_pos h, if_pos h]
  · simp only [ge_iff_le, if_pos h]
  · have h4 : ¬ (4 : Int) ≤ getDataSize dataType dataCount := by omega
    simp only [ge_iff_le, if_neg h4, if_pos h]
  · have h4 : ¬ (4 : Int) ≤ getDataSize dataType dataCount := by omega
    have h2 : ¬ getDataSize dataType dataCount = 2 := by omega
    simp only [ge_iff_le, if_neg h4, if_neg h2, if_pos h]

theorem matchHeader_eq (a b c d s0 s1 s2 s3 : Nat) :
    matchHeader [a, b, c, d] [s0, s1, s2, s3]
      = .ok (decide (a = s0 ∧ b = s1 ∧ c = s2 ∧ d = s3)) := by
  simp only [matchHeader, forLoop, readByte, bind, Except.bind, pure, Except.pure]
  simp
  by_cases h0 : a = s0 <;> by_cases h1 : b = s1 <;> by_cases h2 : c = s2 <;>
    by_cases h3 : d = s3 <;> simp [h0, h1, h2, h3]

/-- The header check on four bytes. -/
theorem main_header_eq (a b c d : Nat) :
    main_header [a, b, c, d] =
      if a = 0x4D ∧ b = 0x4D ∧ c = 0x00 ∧ d = 0x2A then .ok false
      else if a = 0x49 ∧ b = 0x49 ∧ c = 0x2A ∧ d = 0x00 then .ok true
      else .error .notATiff := by
  simp only [main_header, matchHeader_eq, readByte, bind, Except.bind, pure, Except.pure]
  by_cases h1 : a = 0x4D ∧ b = 0x4D ∧ c = 0x00 ∧ d = 0x2A
  · simp [h1]
  · by_cases h2 : a = 0x49 ∧ b = 0x49 ∧ c = 0x2A ∧ d = 0x00
    · obtain ⟨rfl, rfl, rfl, rfl⟩ := h2
      simp
    · simp [h1, h2]
      rfl

theorem fread_prefix4 (a b c d : Nat) (rest : List Nat) (buffer : Nat → Nat) :
    fread (a :: b :: c :: d :: rest) 0 4 buffer = ([a, b, c, d], 4) := by
  simp [fread, List.range, List.range.loop]

/-- C12: the header check accepts four bytes exactly when they are `4D 4D 00 2A`
(then the file is read as big-endian) or `49 49 2A 00` (then as
little-endian); on every other four bytes `main` ends with the not-a-tiff
error whatever the file holds after them, for instance on `00 00 00 00`. -/
theorem main_header_accepts (a b c d : Nat) :
    (main_header [a, b, c, d] =
      if a = 0x4D ∧ b = 0x4D ∧ c = 0x00 ∧ d = 0x2A then .ok false
      else if a = 0x49 ∧ b = 0x49 ∧ c = 0x2A ∧ d = 0x00 then .ok true
      else .error .notATiff) ∧
    (¬ (a = 0x4D ∧ b = 0x4D ∧ c = 0x00 ∧ d = 0x2A) →
      ¬ (a = 0x49 ∧ b = 0x49 ∧ c = 0x2A ∧ d = 0x00) →
      ∀ (u : Uninit) (rest : List Nat), main u (a :: b :: c :: d :: rest) = .error .notATiff) ∧
    (∀ (u : Uninit) (rest : List Nat), main u (0 :: 0 :: 0 :: 0 :: rest) = .error .notATiff) := by
  have key : ¬ (a = 0x4D ∧ b = 0x4D ∧ c = 0x00 ∧ d = 0x2A) →
      ¬ (a = 0x49 ∧ b = 0x49 ∧ c = 0x2A ∧ d = 0x00) →
      ∀ (u : Uninit) (rest : List Nat), main u (a :: b :: c :: d :: rest) = .error .notATiff := by
    intro h1 h2 u rest
    unfold main
    simp only [fread_prefix4, main_header_eq, if_neg h1, if_neg h2, bind, Except.bind]
  refine ⟨main_header_eq a b c d, key, ?_⟩
  intro u rest
  unfold main
  simp only [fread_prefix4, main_header_eq, bind, Except.bind]
  rfl

/-- An instance of `main_header_accepts`: the little-endian signature with its last
two bytes swapped is rejected. -/
theorem main_header_accepts_witness :
    ∀ (u : Uninit) (rest : List Nat), main u (0x49 :: 0x49 :: 0x00 :: 0x2A :: rest)
      = .error .notATiff :=
  (main_header_accepts 0x49 0x49 0x00 0x2A).2.1 (by decide) (by decide)

/-! ## The image descriptor -/

/-- A field that only the entries satisfying `hit` assign keeps its value over
entries that do not satisfy it. -/
theorem foldl_field_kept {α β γ : Type} (f : β → α → β) (get : β → γ) (hit : α → Prop)
    (val : α → γ) [DecidablePred hit]
    (hstep : ∀ b a, get (f b a) = if hit a then val a else get b) :
    ∀ (l : List α) (b : β), (∀ a ∈ l, ¬ hit a) → get (l.foldl f b) = get b := by
  intro l
  induction l with
  | nil => intro b _; rfl
  | cons a l ih =>
    intro b h
    rw [List.foldl_cons, ih (f b a) (fun x hx => h x (List.mem_cons_of_mem a hx)), hstep,
      if_neg (h a (List.mem_cons_self a l))]

/-- A field that only the entries satisfying `hit` assign holds, after the loop,
the value of the last such entry. -/
theorem foldl_field_last {α β γ : Type} (f : β → α → β) (get : β → γ) (hit : α → Prop)
    (val : α → γ) [DecidablePred hit]
    (hstep : ∀ b a, get (f b a) = if hit a then val a else get b)
    (before : List α) (e : α) (after : List α) (b : β) (he : hit e)
    (hafter : ∀ a ∈ after, ¬ hit a) :
    get ((before ++ e :: after).foldl f b) = val e := by
  rw [List.foldl_append, List.foldl_cons,
    foldl_field_kept f get hit val hstep after _ hafter, hstep, if_pos he]

theorem imageInfoStep_imageWidth (info : ImageInfo) (e : TIFTAG) :
    (imageInfoStep info e).imageWidth
      = if e.TagId = 256 then toInt32 e.DataOffset else info.imageWidth := by
  unfold imageInfoStep
  split_ifs <;> simp_all

theorem imageInfoStep_imageHeight (info : ImageInfo) (e : TIFTAG) :
    (imageInfoStep info e).imageHeight
      = if e.TagId = 257 then toInt32 e.DataOffset else info.imageHeight := by
  unfold imageInfoStep
  split_ifs <;> simp_all

theorem imageInfoStep_rowsPerStrip (info : ImageInfo) (e : TIFTAG) :
    (imageInfoStep info e).rowsPerStrip
      = if e.TagId = 278 then toInt32 e.DataOffset else info.rowsPerStrip := by
  unfold imageInfoStep
  split_ifs <;> simp_all

theorem imageInfoStep_stripOffsets (info : ImageInfo) (e : TIFTAG) :
    (imageInfoStep info e).stripOffsets
      = if e.TagId = 273 then toInt32 e.DataOffset else info.stripOffsets := by
  unfold imageInfoStep
  split_ifs <;> simp_all

theorem imageInfoStep_stripByteCounts (info : ImageInfo) (e : TIFTAG) :
    (imageInfoStep info e).stripByteCounts
      = if e.TagId = 279 then toInt32 e.DataOffset else info.stripByteCounts := by
  unfold imageInfoStep
  split_ifs <;> simp_all

theorem imageInfoStep_samplesPerPixels (info : ImageInfo) (e : TIFTAG) :
    (imageInfoStep info e).samplesPerPixels
      = if e.TagId = 277 then e.DataOffset % 256 else info.samplesPerPixels := by
  unfold imageInfoStep
  split_ifs <;> simp_all

theorem imageInfoStep_other (info : ImageInfo) (e : TIFTAG)
    (h : e.TagId ≠ 256 ∧ e.TagId ≠ 257 ∧ e.TagId ≠ 278 ∧ e.TagId ≠ 273 ∧ e.TagId ≠ 279 ∧
      e.TagId ≠ 277) : imageInfoStep info e = info := by
  unfold imageInfoStep
  simp [h.1, h.2.1, h.2.2.1, h.2.2.2.1, h.2.2.2.2.1, h.2.2.2.2.2]


/-- C14 fails where `DataOffset` does not fit the field: an entry with tag 277 and
`DataOffset` 256 leaves `samplesPerPixels` at 0, and an entry with tag 256 and
`DataOffset` `0xFFFFFFFF` leaves `imageWidth` at -1. -/
theorem main_imageInfo_truncates :
    (main_imageInfo ⟨0, 0, 0, 0, 0, 1, 0, 0⟩
      [{ TagId := 277, DataType := 3, DataCount := 1, DataOffset := 256 }]).samplesPerPixels = 0 ∧
    (main_imageInfo ⟨0, 0, 0, 0, 0, 1, 0, 0⟩
      [{ TagId := 256, DataType := 4, DataCount := 1, DataOffset := 4294967295 }]).imageWidth
        = -1 :=
  ⟨rfl, rfl⟩

/-- C14, amended: when `e` is the last entry of the directory with one of the six
tag ids, the matching field holds, after the loop, the `DataOffset` of `e`
converted to the type of the field: to `int` for `imageWidth`, `imageHeight`,
`rowsPerStrip`, `stripOffsets`, `stripByteCounts` (the same number below
`2^31`), modulo 256 for `samplesPerPixels` (the same number below 256); an
entry with any other tag id changes no field. -/
theorem main_imageInfo_last (init : ImageInfo) (before : List TIFTAG) (e : TIFTAG)
    (after : List TIFTAG) :
    (e.TagId = 256 → (∀ a ∈ after, a.TagId ≠ 256) →
      (main_imageInfo init (before ++ e :: after)).imageWidth = toInt32 e.DataOffset) ∧
    (e.TagId = 257 → (∀ a ∈ after, a.TagId ≠ 257) →
      (main_imageInfo init (before ++ e :: after)).imageHeight = toInt32 e.DataOffset) ∧
    (e.TagId = 278 → (∀ a ∈ after, a.TagId ≠ 278) →
      (main_imageInfo init (before ++ e :: after)).rowsPerStrip = toInt32 e.DataOffset) ∧
    (e.TagId = 273 → (∀ a ∈ after, a.TagId ≠ 273) →
      (main_imageInfo init (before ++ e :: after)).stripOffsets = toInt32 e.DataOffset) ∧
    (e.TagId = 279 → (∀ a ∈ after, a.TagId ≠ 279) →
      (main_imageInfo init (before ++ e :: after)).stripByteCounts = toInt32 e.DataOffset) ∧
    (e.TagId = 277 → (∀ a ∈ after, a.TagId ≠ 277) →
      (main_imageInfo init (before ++ e :: after)).samplesPerPixels = e.DataOffset % 256) ∧
    (e.DataOffset < 2147483648 → toInt32 e.DataOffset = (e.DataOffset : Int)) ∧
    (e.DataOffset < 256 → e.DataOffset % 256 = e.DataOffset) ∧
    (e.TagId ≠ 256 ∧ e.TagId ≠ 257 ∧ e.TagId ≠ 278 ∧ e.TagId ≠ 273 ∧ e.TagId ≠ 279 ∧
      e.TagId ≠ 277 → ∀ info : ImageInfo, imageInfoStep info e = info) := by
  refine ⟨fun he ha => ?_, fun he ha => ?_, fun he ha => ?_, fun he ha => ?_, fun he ha => ?_,
    fun he ha => ?_, toInt32_of_lt, Nat.mod_eq_of_lt, fun h info => imageInfoStep_other info e h⟩
  · exact foldl_field_last imageInfoStep (fun i => i.imageWidth) (fun a => a.TagId = 256)
      (fun a => toInt32 a.DataOffset) imageInfoStep_imageWidth before e after init he ha
  · exact foldl_field_last imageInfoStep (fun i => i.imageHeight) (fun a => a.TagId = 257)
      (fun a => toInt32 a.DataOffset) imageInfoStep_imageHeight before e after init he ha
  · exact foldl_field_last imageInfoStep (fun i => i.rowsPerStrip) (fun a => a.TagId = 278)
      (fun a => toInt32 a.DataOffset) imageInfoStep_rowsPerStrip before e after init he ha
  · exact foldl_field_last imageInfoStep (fun i => i.stripOffsets) (fun a => a.TagId = 273)
      (fun a => toInt32 a.DataOffset) imageInfoStep_stripOffsets before e after init he ha
  · exact foldl_field_last imageInfoStep (fun i => i.stripByteCounts) (fun a => a.TagId = 279)
      (fun a => toInt32 a.DataOffset) imageInfoStep_stripByteCounts before e after init he ha
  · exact foldl_field_last imageInfoStep (fun i => i.samplesPerPixels) (fun a => a.TagId = 277)
      (fun a => a.DataOffset % 256) imageInfoStep_samplesPerPixels before e after init he ha

/-- An instance of `main_imageInfo_last`: two entries with tag 256, the last one wins. -/
theorem main_imageInfo_last_witness :
    (main_imageInfo ⟨0, 0, 0, 0, 0, 0, 0, 0⟩
      ([{ TagId := 256, DataType := 3, DataCount := 1, DataOffset := 5 }]
        ++ { TagId := 256, DataType := 3, DataCount := 1, DataOffset := 640 }
          :: [{ TagId := 257, DataType := 3, DataCount := 1, DataOffset := 480 }])).imageWidth
      = toInt32 640 :=
  (main_imageInfo_last ⟨0, 0, 0, 0, 0, 0, 0, 0⟩
    [{ TagId := 256, DataType := 3, DataCount := 1, DataOffset := 5 }]
    { TagId := 256, DataType := 3, DataCount := 1, DataOffset := 640 }
    [{ TagId := 257, DataType := 3, DataCount := 1, DataOffset := 480 }]).1 rfl (by decide)

/-- C16 fails: over a directory without the tag, a field keeps what the struct held
before the loop, here 7 and not 0. -/
theorem main_imageInfo_empty_directory :
    main_imageInfo ⟨7, 7, 7, 7, 7, 7, 7, 7⟩ [] = ⟨7, 7, 7, 7, 7, 7, 7, 7⟩ ∧
    (main_imageInfo ⟨7, 7, 7, 7, 7, 7, 7, 7⟩
      [{ TagId := 257, DataType := 3, DataCount := 1, DataOffset := 480 }]).imageWidth = 7 :=
  ⟨rfl, rfl⟩

/-- C16, amended: for each of the six fields, if no entry of the directory carries
its tag id, the field holds after the loop what the struct held before it. -/
theorem main_imageInfo_absent (init : ImageInfo) (tiftags : List TIFTAG) :
    ((∀ a ∈ tiftags, a.TagId ≠ 256) →
      (main_imageInfo init tiftags).imageWidth = init.imageWidth) ∧
    ((∀ a ∈ tiftags, a.TagId ≠ 257) →
      (main_imageInfo init tiftags).imageHeight = init.imageHeight) ∧
    ((∀ a ∈ tiftags, a.TagId ≠ 278) →
      (main_imageInfo init tiftags).rowsPerStrip = init.rowsPerStrip) ∧
    ((∀ a ∈ tiftags, a.TagId ≠ 273) →
      (main_imageInfo init tiftags).stripOffsets = init.stripOffsets) ∧
    ((∀ a ∈ tiftags, a.TagId ≠ 279) →
      (main_imageInfo init tiftags).stripByteCounts = init.stripByteCounts) ∧
    ((∀ a ∈ tiftags, a.TagId ≠ 277) →
      (main_imageInfo init tiftags).samplesPerPixels = init.samplesPerPixels) :=
  ⟨foldl_field_kept imageInfoStep (fun i => i.imageWidth) (fun a => a.TagId = 256)
      (fun a => toInt32 a.DataOffset) imageInfoStep_imageWidth tiftags init,
    foldl_field_kept imageInfoStep (fun i => i.imageHeight) (fun a => a.TagId = 257)
      (fun a => toInt32 a.DataOffset) imageInfoStep_imageHeight tiftags init,
    foldl_field_kept imageInfoStep (fun i => i.rowsPerStrip) (fun a => a.TagId = 278)
      (fun a => toInt32 a.DataOffset) imageInfoStep_rowsPerStrip tiftags init,
    foldl_field_kept imageInfoStep (fun i => i.stripOffsets) (fun a => a.TagId = 273)
      (fun a => toInt32 a.DataOffset) imageInfoStep_stripOffsets tiftags init,
    foldl_field_kept imageInfoStep (fun i => i.stripByteCounts) (fun a => a.TagId = 279)
      (fun a => toInt32 a.DataOffset) imageInfoStep_stripByteCounts tiftags init,
    foldl_field_kept imageInfoStep (fun i => i.samplesPerPixels) (fun a => a.TagId = 277)
      (fun a => a.DataOffset % 256) imageInfoStep_samplesPerPixels tiftags init⟩

/-- An instance of `main_imageInfo_absent`: a directory without tag 278. -/
theorem main_imageInfo_absent_witness :
    (main_imageInfo ⟨7, 7, 7, 7, 7, 7, 7, 7⟩
      [{ TagId := 257, DataType := 3, DataCount := 1, DataOffset := 480 }]).rowsPerStrip = 7 :=
  (main_imageInfo_absent ⟨7, 7, 7, 7, 7, 7, 7, 7⟩
    [{ TagId := 257, DataType := 3, DataCount := 1, DataOffset := 480 }]).2.2.1 (by decide)

theorem fread_three (file : List Nat) (pos : Nat) (buffer : Nat → Nat) :
    (fread file pos 3 buffer).1
      = [(file[pos + 0]?).getD (buffer 0), (file[pos + 1]?).getD (buffer 1),
          (file[pos + 2]?).getD (buffer 2)] := by
  simp [fread, List.range, List.range.loop]

theorem main_pixels_body_eq (file : List Nat) (p : Int) (s : PixelState) :
    main_pixels_body file p s = .ok {
      rgb_dump := fun k => (fread file s.pos 3 s.rgb_dump).1.getD k 0
      pos := (fread file s.pos 3 s.rgb_dump).2
      rgbData := {
        red := s.rgbData.red ++ [(file[s.pos + 0]?).getD (s.rgb_dump 0)]
        green := s.rgbData.green ++ [(file[s.pos + 1]?).getD (s.rgb_dump 1)]
        blue := s.rgbData.blue ++ [(file[s.pos + 2]?).getD (s.rgb_dump 2)] } } := by
  simp only [main_pixels_body, fread_three, readByte, List.getElem?_cons_zero,
    List.getElem?_cons_succ, bind, Except.bind, pure, Except.pure]

/-- The pixel load has no abort but the failed allocation: for a non-negative
`imageWidth * imageHeight` it returns that many pixels. -/
theorem main_pixels_loads (u : Uninit) (file : List Nat) (imageInfo : ImageInfo) (pos : Nat) :
    (wrapInt32 (imageInfo.imageWidth * imageInfo.imageHeight) < 0 →
      main_pixels u file imageInfo pos = .error .memoryAllocation) ∧
    (0 ≤ wrapInt32 (imageInfo.imageWidth * imageInfo.imageHeight) →
      ∃ rgbData, main_pixels u file imageInfo pos = .ok rgbData ∧
        rgbData.red.length = (wrapInt32 (imageInfo.imageWidth * imageInfo.imageHeight)).toNat ∧
        rgbData.green.length
          = (wrapInt32 (imageInfo.imageWidth * imageInfo.imageHeight)).toNat ∧
        rgbData.blue.length
          = (wrapInt32 (imageInfo.imageWidth * imageInfo.imageHeight)).toNat) := by
  constructor
  · intro h
    simp only [main_pixels, if_pos h, bind, Except.bind, throw, throwThe, MonadExceptOf.throw]
  · intro h
    have hn : ¬ wrapInt32 (imageInfo.imageWidth * imageInfo.imageHeight) < 0 := by omega
    simp only [main_pixels, if_neg hn, bind, Except.bind, pure, Except.pure]
    obtain ⟨s, hs, hI⟩ := forLoop_invariant (main_pixels_body file)
      (fun i s => (s.rgbData.red.length : Int) = i ∧ (s.rgbData.green.length : Int) = i ∧
        (s.rgbData.blue.length : Int) = i)
      (wrapInt32 (imageInfo.imageWidth * imageInfo.imageHeight)).toNat 0
      { rgb_dump := u.rgb_dump
        pos := if 0 ≤ imageInfo.stripOffsets then imageInfo.stripOffsets.toNat
          else (fread file pos 4 u.nextIFDOffset).2
        rgbData := { red := [], green := [], blue := [] } }
      ⟨rfl, rfl, rfl⟩
      (fun j t _ _ hI => by
        rw [main_pixels_body_eq]
        refine ⟨_, rfl, ?_⟩
        simp only [List.length_append, List.length_singleton]
        push_cast
        omega)
    rw [hs]
    exact ⟨s.rgbData, rfl, by omega, by omega, by omega⟩

/-- C15 fails: the directory of this little-endian file has the entries 257 and 273
but none for the width (256).  `main` signals nothing: `imageWidth` keeps the
value 1 it held before the loop and the two pixels are loaded. -/
theorem main_loads_without_width :
    main_directory (zeroedLocals ⟨1, 9, 9, 9, 9, 9, 9, 9⟩)
      [0x49, 0x49, 0x2A, 0, 8, 0, 0, 0, 2, 0, 1, 1, 4, 0, 1, 0, 0, 0, 2, 0, 0, 0,
        0x11, 1, 4, 0, 1, 0, 0, 0, 38, 0, 0, 0, 0, 0, 0, 0, 10, 20, 30, 40, 50, 60] true 8
      = .ok ([{ TagId := 257, DataType := 4, DataCount := 1, DataOffset := 2 },
              { TagId := 273, DataType := 4, DataCount := 1, DataOffset := 38 }], 34) ∧
    main (zeroedLocals ⟨1, 9, 9, 9, 9, 9, 9, 9⟩)
      [0x49, 0x49, 0x2A, 0, 8, 0, 0, 0, 2, 0, 1, 1, 4, 0, 1, 0, 0, 0, 2, 0, 0, 0,
        0x11, 1, 4, 0, 1, 0, 0, 0, 38, 0, 0, 0, 0, 0, 0, 0, 10, 20, 30, 40, 50, 60]
      = .ok (⟨1, 2, 9, 38, 9, 9, 9, 9⟩,
          { red := [10, 40], green := [20, 50], blue := [30, 60] }) :=
  ⟨rfl, rfl⟩

/-- C15, amended: a directory without an entry for the width (256), the height
(257) or the strip offset (273) makes `main` signal nothing: the field keeps
what it held before the loop, and the pixel load that follows returns
`imageWidth * imageHeight` pixels whenever this product is not negative. -/
theorem main_without_required_tags (u : Uninit) (file : List Nat) (tiftags : List TIFTAG)
    (pos : Nat) :
    ((∀ a ∈ tiftags, a.TagId ≠ 256) →
      (main_imageInfo u.imageInfo tiftags).imageWidth = u.imageInfo.imageWidth) ∧
    ((∀ a ∈ tiftags, a.TagId ≠ 257) →
      (main_imageInfo u.imageInfo tiftags).imageHeight = u.imageInfo.imageHeight) ∧
    ((∀ a ∈ tiftags, a.TagId ≠ 273) →
      (main_imageInfo u.imageInfo tiftags).stripOffsets = u.imageInfo.stripOffsets) ∧
    (0 ≤ wrapInt32 ((main_imageInfo u.imageInfo tiftags).imageWidth
        * (main_imageInfo u.imageInfo tiftags).imageHeight) →
      ∃ rgbData,
        main_pixels u file (main_imageInfo u.imageInfo tiftags) pos = .ok rgbData ∧
        rgbData.red.length = (wrapInt32 ((main_imageInfo u.imageInfo tiftags).imageWidth
          * (main_imageInfo u.imageInfo tiftags).imageHeight)).toNat) :=
  ⟨foldl_field_kept imageInfoStep (fun i => i.imageWidth) (fun a => a.TagId = 256)
      (fun a => toInt32 a.DataOffset) imageInfoStep_imageWidth tiftags u.imageInfo,
    foldl_field_kept imageInfoStep (fun i => i.imageHeight) (fun a => a.TagId = 257)
      (fun a => toInt32 a.DataOffset) imageInfoStep_imageHeight tiftags u.imageInfo,
    foldl_field_kept imageInfoStep (fun i => i.stripOffsets) (fun a => a.TagId = 273)
      (fun a => toInt32 a.DataOffset) imageInfoStep_stripOffsets tiftags u.imageInfo,
    fun h => by
      obtain ⟨rgbData, h1, h2, _⟩ :=
        (main_pixels_loads u file (main_imageInfo u.imageInfo tiftags) pos).2 h
      exact ⟨rgbData, h1, h2⟩⟩

/-- An instance of `main_without_required_tags`: a directory with the height only,
and 3 in `imageWidth` before the loop. -/
theorem main_without_required_tags_witness :
    (main_imageInfo (zeroedLocals ⟨3, 0, 0, 0, 0, 0, 0, 0⟩).imageInfo
      [{ TagId := 257, DataType := 3, DataCount := 1, DataOffset := 2 }]).imageWidth = 3 ∧
    ∃ rgbData,
      main_pixels (zeroedLocals ⟨3, 0, 0, 0, 0, 0, 0, 0⟩) [1, 2, 3, 4, 5, 6, 7, 8, 9]
        (main_imageInfo (zeroedLocals ⟨3, 0, 0, 0, 0, 0, 0, 0⟩).imageInfo
          [{ TagId := 257, DataType := 3, DataCount := 1, DataOffset := 2 }]) 0
        = .ok rgbData ∧
      rgbData.red.length = (wrapInt32
        ((main_imageInfo (zeroedLocals ⟨3, 0, 0, 0, 0, 0, 0, 0⟩).imageInfo
          [{ TagId := 257, DataType := 3, DataCount := 1, DataOffset := 2 }]).imageWidth
        * (main_imageInfo (zeroedLocals ⟨3, 0, 0, 0, 0, 0, 0, 0⟩).imageInfo
          [{ TagId := 257, DataType := 3, DataCount := 1, DataOffset := 2 }]).imageHeight)).toNat :=
  ⟨(main_without_required_tags (zeroedLocals ⟨3, 0, 0, 0, 0, 0, 0, 0⟩) [1, 2, 3, 4, 5, 6, 7, 8, 9]
      [{ TagId := 257, DataType := 3, DataCount := 1, DataOffset := 2 }] 0).1 (by decide),
    (main_without_required_tags (zeroedLocals ⟨3, 0, 0, 0, 0, 0, 0, 0⟩) [1, 2, 3, 4, 5, 6, 7, 8, 9]
      [{ TagId := 257, DataType := 3, DataCount := 1, DataOffset := 2 }] 0).2.2.2 (by decide)⟩

/-- A read that the file can serve in full stores the next `count` bytes. -/
theorem fread_full (file : List Nat) (pos count : Nat) (buffer : Nat → Nat)
    (h : pos + count ≤ file.length) :
    fread file pos count buffer = ((file.drop pos).take count, pos + count) := by
  unfold fread
  congr 1
  · apply List.ext_getElem?
    intro k
    by_cases hk : k < count
    · have h1 : pos + k < file.length := by omega
      simp [List.getElem?_take, hk, List.getElem?_drop, List.getElem?_eq_getElem h1,
        List.getElem?_range hk]
    · simp [List.getElem?_take, hk]
      omega
  · omega

/-- Abort rule for `forLoop`: when the invariant carries the loop through `m`
iterations and the next one aborts, the loop aborts. -/
theorem forLoop_abort {σ : Type} (body : Int → σ → Except Abort σ) (Inv : Int → σ → Prop)
    (e : Abort) :
    ∀ (m n : Nat) (i : Int) (s : σ), m < n → Inv i s →
      (∀ j t, i ≤ j → j < i + m → Inv j t → ∃ t1, body j t = .ok t1 ∧ Inv (j + 1) t1) →
      (∀ t, Inv (i + m) t → body (i + m) t = .error e) →
      forLoop body n i s = .error e := by
  intro m
  induction m with
  | zero =>
    intro n i s hm h0 _ hfail
    obtain ⟨n1, rfl⟩ : ∃ n1, n = n1 + 1 := ⟨n - 1, by omega⟩
    have hb := hfail s (by simpa using h0)
    simp only [Nat.cast_zero, add_zero] at hb
    simp only [forLoop, hb]
  | succ m ih =>
    intro n i s hm h0 hstep hfail
    obtain ⟨n1, rfl⟩ : ∃ n1, n = n1 + 1 := ⟨n - 1, by omega⟩
    obtain ⟨s1, hb, h1⟩ := hstep i s (le_refl i) (by push_cast; omega) h0
    simp only [forLoop, hb]
    apply ih n1 (i + 1) s1 (by omega) h1
    · intro j t hj hj2 hI
      exact hstep j t (by omega) (by push_cast; omega) hI
    · intro t hI
      have e1 : i + 1 + (m : Int) = i + ((m + 1 : Nat) : Int) := by push_cast; ring
      rw [e1] at hI ⊢
      exact hfail t hI


/-- One iteration of the directory loop on a record the file holds in full. -/
theorem main_directory_body_eq (u : Uninit) (file : List Nat) (le : Bool) (k : Nat)
    (tiftags : List TIFTAG) (pos : Nat) (h : pos + 12 ≤ file.length) :
    main_directory_body u file le (k : Int) (tiftags, pos) =
      match extract_tiftag_from_12bytes (u.tiftag_union k) ((file.drop pos).take 12) le 0 with
      | .ok tiftag => .ok (tiftags ++ [tiftag], pos + 12)
      | .error e => .error e := by
  simp only [main_directory_body, fread_full file pos 12 _ h, Int.toNat_ofNat, bind,
    Except.bind, pure, Except.pure]
  cases extract_tiftag_from_12bytes (u.tiftag_union k) ((file.drop pos).take 12) le 0 <;> rfl

theorem directoryInv_step (u : Uninit) (file : List Nat) (le : Bool) (ifd n : Nat)
    (hlen : ifd + 2 + 12 * n ≤ file.length) (j : Int) (st : List TIFTAG × Nat) (t : TIFTAG)
    (hj : j < n) (hI : DirectoryInv u file le ifd j st)
    (hdec : extract_tiftag_from_12bytes (u.tiftag_union j.toNat)
      ((file.drop (ifd + 2 + 12 * j.toNat)).take 12) le 0 = .ok t) :
    ∃ st1, main_directory_body u file le j st = .ok st1 ∧
      DirectoryInv u file le ifd (j + 1) st1 := by
  obtain ⟨k, hk, hpos, hl, hall⟩ := hI
  subst hk
  simp only [Int.toNat_ofNat] at hdec
  obtain ⟨tags, pos⟩ := st
  simp only at hpos hl hall
  subst hpos
  rw [main_directory_body_eq u file le k tags _ (by omega), hdec]
  refine ⟨_, rfl, k + 1, by push_cast; rfl, by simp only; omega, by simp [hl], ?_⟩
  intro m t1 hm
  simp only at hm
  by_cases hmk : m < tags.length
  · rw [List.getElem?_append_left hmk] at hm
    exact hall m t1 hm
  · have hmk2 : tags.length ≤ m := by omega
    rw [List.getElem?_append_right hmk2] at hm
    have : m - tags.length = 0 := by
      by_contra hne
      rw [List.getElem?_eq_none (by simp; omega)] at hm
      cases hm
    have hm2 : m = k := by omega
    rw [this] at hm
    simp only [List.getElem?_cons_zero, Option.some.injEq] at hm
    subst hm hm2
    exact hdec

/-- C17: on a file that holds the count `n` at the IFD offset and the `n` records
after it, the directory read gives exactly `n` entries when every record
decodes, entry `i` being the decoding of the 12 bytes at offset
`IFD + 2 + 12 * i` (file order); and when record `j` is the first that does
not decode, the read ends with the error of that record. -/
theorem main_directory_entries (u : Uninit) (file : List Nat) (le : Bool) (ifd n : Nat)
    (hn : extract_short_from_2bytes ((file.drop ifd).take 2) le 0 = .ok n)
    (hlen : ifd + 2 + 12 * n ≤ file.length) :
    ((∀ i, i < n → ∃ t, extract_tiftag_from_12bytes (u.tiftag_union i)
        ((file.drop (ifd + 2 + 12 * i)).take 12) le 0 = .ok t) →
      ∃ tiftags, main_directory u file le ifd = .ok (tiftags, ifd + 2 + 12 * n) ∧
        tiftags.length = n ∧
        ∀ i t, tiftags[i]? = some t →
          extract_tiftag_from_12bytes (u.tiftag_union i)
            ((file.drop (ifd + 2 + 12 * i)).take 12) le 0 = .ok t) ∧
    (∀ j e, j < n →
      (∀ i, i < j → ∃ t, extract_tiftag_from_12bytes (u.tiftag_union i)
        ((file.drop (ifd + 2 + 12 * i)).take 12) le 0 = .ok t) →
      extract_tiftag_from_12bytes (u.tiftag_union j)
        ((file.drop (ifd + 2 + 12 * j)).take 12) le 0 = .error e →
      main_directory u file le ifd = .error e) := by
  have hstart : main_directory u file le ifd
      = forLoop (main_directory_body u file le) n 0 ([], ifd + 2) := by
    simp only [main_directory, fread_full file ifd 2 _ (by omega), hn, bind, Except.bind]
  have h0 : DirectoryInv u file le ifd 0 ([], ifd + 2) :=
    ⟨0, rfl, rfl, rfl, fun m t hm => by simp at hm⟩
  constructor
  · intro hall
    obtain ⟨st, hst, k, hk, hpos, hl, hdec⟩ := forLoop_invariant (main_directory_body u file le)
      (DirectoryInv u file le ifd) n 0 ([], ifd + 2) h0
      (fun j st hj0 hjn hI => by
        obtain ⟨t, ht⟩ := hall j.toNat (by omega)
        exact directoryInv_step u file le ifd n hlen j st t (by omega) hI ht)
    have hkn : k = n := by omega
    subst hkn
    refine ⟨st.1, ?_, hl, hdec⟩
    rw [hstart, hst, ← hpos]
  · intro j e hj hall hfail
    rw [hstart]
    apply forLoop_abort (main_directory_body u file le) (DirectoryInv u file le ifd) e j n 0
      ([], ifd + 2) hj h0
    · intro i st hi0 hij hI
      obtain ⟨t, ht⟩ := hall i.toNat (by omega)
      exact directoryInv_step u file le ifd n hlen i st t (by omega) hI ht
    · intro st hI
      obtain ⟨k, hk, hpos, hl, _⟩ := hI
      have hkj : k = j := by omega
      subst hkj
      obtain ⟨tags, pos⟩ := st
      simp only at hpos
      subst hpos
      simp only [zero_add]
      rw [main_directory_body_eq u file le k tags _ (by omega), hfail]

/-- An instance of `main_directory_entries`: a little-endian directory of two
entries at offset 8. -/
theorem main_directory_entries_witness :
    ∃ tiftags, main_directory (zeroedLocals ⟨0, 0, 0, 0, 0, 0, 0, 0⟩)
        [0x49, 0x49, 0x2A, 0, 8, 0, 0, 0, 2, 0, 1, 1, 4, 0, 1, 0, 0, 0, 2, 0, 0, 0,
          0, 1, 3, 0, 1, 0, 0, 0, 38, 0, 0, 0] true 8 = .ok (tiftags, 8 + 2 + 12 * 2) ∧
      tiftags.length = 2 ∧
      ∀ i t, tiftags[i]? = some t →
        extract_tiftag_from_12bytes ((zeroedLocals ⟨0, 0, 0, 0, 0, 0, 0, 0⟩).tiftag_union i)
          ((([0x49, 0x49, 0x2A, 0, 8, 0, 0, 0, 2, 0, 1, 1, 4, 0, 1, 0, 0, 0, 2, 0, 0, 0,
            0, 1, 3, 0, 1, 0, 0, 0, 38, 0, 0, 0] : List Nat).drop (8 + 2 + 12 * i)).take 12)
          true 0 = .ok t :=
  (main_directory_entries (zeroedLocals ⟨0, 0, 0, 0, 0, 0, 0, 0⟩)
    [0x49, 0x49, 0x2A, 0, 8, 0, 0, 0, 2, 0, 1, 1, 4, 0, 1, 0, 0, 0, 2, 0, 0, 0,
      0, 1, 3, 0, 1, 0, 0, 0, 38, 0, 0, 0] true 8 2 (by rfl) (by decide)).1
    (fun i hi => by
      have h : i = 0 ∨ i = 1 := by omega
      rcases h with rfl | rfl
      · exact ⟨_, rfl⟩
      · exact ⟨_, rfl⟩)

/-! ## The ditherer and the scan of the description -/

theorem readPixel_cast {p : List Nat} {k : Nat} (h : k < p.length) :
    readPixel p (k : Int) = .ok ((p.getD k 0 : Nat) : Int) := by
  simp [readPixel, List.getElem?_eq_getElem h, List.getD_eq_getElem?_getD]

theorem writePixel_cast {p : List Nat} {k : Nat} (v : Int) (h : k < p.length) :
    writePixel p (k : Int) v = .ok (p.set k (toByte v)) := by
  simp [writePixel, h]

theorem toByte_clampInt_reference (n : Int) :
    toByte (clampInt n) = (clampReference n).toNat := by
  rw [toByte_clampInt]
  unfold clampReference
  split_ifs <;> rfl

/-- The shift of the code is the floor of the division by 16, also for a negative
operand. -/
theorem shiftRight_four (n : Int) : n >>> 4 = n / 16 := by
  cases n with
  | ofNat m =>
    have h := Int.shiftRight_coe_nat m 4
    simp only [Nat.cast_ofNat] at h
    rw [Int.ofNat_eq_coe, h, Nat.shiftRight_eq_div_pow]
    norm_num
  | negSucc m =>
    have h := Int.shiftRight_negSucc m 4
    simp only [Nat.cast_ofNat] at h
    rw [h, Nat.shiftRight_eq_div_pow]
    rw [Int.negSucc_ediv m (by decide : (0 : Int) < 16)]
    simp only [Int.negSucc_eq, Int.ediv]
    norm_num

theorem shiftRight_four_eq_fdiv (n : Int) : n >>> 4 = Int.fdiv n 16 := by
  rw [shiftRight_four, Int.fdiv_eq_ediv n (by decide : (0 : Int) ≤ 16)]

theorem diffuse_reference {r : List Nat} (width x y : Nat) (error weight : Int)
    (h : y * width + x < r.length) :
    diffuse r ((y * width + x : Nat) : Int) ((error * weight) >>> 4)
      = .ok (propagateReference r width x y error weight) := by
  simp only [diffuse, readPixel_cast h, bind, Except.bind]
  rw [writePixel_cast _ h, toByte_clampInt_reference, shiftRight_four_eq_fdiv]
  rfl

theorem length_propagateReference (r : List Nat) (width x y : Nat) (error weight : Int) :
    (propagateReference r width x y error weight).length = r.length := by
  simp [propagateReference]

theorem length_ite_propagate (r : List Nat) (d : Prop) [Decidable d] (width x y : Nat)
    (error weight : Int) :
    (if d then propagateReference r width x y error weight else r).length = r.length := by
  split_ifs
  · exact length_propagateReference r width x y error weight
  · rfl

/-- A guarded diffusion step of the code is the guarded neighbour update of the
description. -/
theorem diffuse_if_reference {r : List Nat} (c : Prop) [Decidable c] (d : Prop) [Decidable d]
    (pos : Int) (width x y : Nat) (error weight : Int) (hcd : c ↔ d)
    (hpos : c → pos = ((y * width + x : Nat) : Int)) (hin : c → y * width + x < r.length) :
    (if c then diffuse r pos ((error * weight) >>> 4) else Except.ok r)
      = .ok (if d then propagateReference r width x y error weight else r) := by
  by_cases hc : c
  · rw [if_pos hc, if_pos (hcd.mp hc), hpos hc, diffuse_reference width x y error weight (hin hc)]
  · rw [if_neg hc, if_neg (fun hd => hc (hcd.mpr hd))]


theorem length_pixelReference (width height y x : Nat) (r : List Nat) :
    (pixelReference width height y x r).length = r.length := by
  unfold pixelReference
  simp only []
  split_ifs <;> simp [length_propagateReference]

/-- On a pixel of the grid the loop body of the code returns, and what it returns
is the visit of the description. -/
theorem ditherPixel_reference {p : List Nat} {width height x y : Nat} (hx : x < width)
    (hy : y < height) (hlen : p.length = width * height) :
    ditherPixel (width : Int) (height : Int) (y : Int) (x : Int) p
      = .ok (pixelReference width height y x p) := by
  have hrow : y * width + width ≤ width * height := by
    have h1 : (y + 1) * width ≤ height * width := Nat.mul_le_mul_right width hy
    have h2 : (y + 1) * width = y * width + width := by ring
    have h3 : height * width = width * height := by ring
    omega
  have hrow2 : y + 1 < height → (y + 1) * width + width ≤ width * height := by
    intro hb
    have h1 : (y + 2) * width ≤ height * width := Nat.mul_le_mul_right width hb
    have h2 : (y + 2) * width = (y + 1) * width + width := by ring
    have h3 : height * width = width * height := by ring
    omega
  have hsucc : (y + 1) * width = y * width + width := by ring
  have hc : y * width + x < p.length := by omega
  have e0 : (y : Int) * (width : Int) + (x : Int) = ((y * width + x : Nat) : Int) := by
    push_cast; ring
  rw [ditherPixel_eq, e0, readPixel_cast hc, bind_ok, writePixel_cast _ hc, bind_ok]
  have hq : toByte (if ((p.getD (y * width + x) 0 : Nat) : Int) < 128 then 0 else 255)
      = (if ((p.getD (y * width + x) 0 : Nat) : Int) < 128 then (0 : Int) else 255).toNat := by
    split_ifs <;> rfl
  rw [hq]
  unfold pixelReference
  simp only []
  have hl1 : (p.set (y * width + x)
      (if ((p.getD (y * width + x) 0 : Nat) : Int) < 128 then (0 : Int) else 255).toNat).length
      = p.length := List.length_set _ _ _
  generalize p.set (y * width + x)
    (if ((p.getD (y * width + x) 0 : Nat) : Int) < 128 then (0 : Int) else 255).toNat = r1 at *
  generalize ((p.getD (y * width + x) 0 : Nat) : Int)
    - (if ((p.getD (y * width + x) 0 : Nat) : Int) < 128 then (0 : Int) else 255) = err at *
  -- east
  rw [diffuse_if_reference ((x : Int) < (width : Int) - 1) (x + 1 < width)
    (((y * width + x : Nat) : Int) + 1) width (x + 1) y err 7 (by omega)
    (fun _ => by push_cast; ring) (fun _ => by omega), bind_ok]
  have hl2 : (if x + 1 < width then propagateReference r1 width (x + 1) y err 7 else r1).length
      = p.length := by rw [length_ite_propagate, hl1]
  generalize (if x + 1 < width then propagateReference r1 width (x + 1) y err 7 else r1)
    = r2 at *
  by_cases hb : y + 1 < height
  · have hb1 : ¬ ((y : Int) + 1 = (height : Int)) := by omega
    have hr2 := hrow2 hb
    rw [if_neg hb1]
    simp only [hb, and_true, if_true]
    -- south-west
    rw [diffuse_if_reference ((x : Int) > 0) (x > 0)
      (((y * width + x : Nat) : Int) + (width : Int) - 1) width (x - 1) (y + 1) err 3 (by omega)
      (fun h => by
        have h1 : ((x - 1 : Nat) : Int) = (x : Int) - 1 := by omega
        push_cast
        rw [h1]
        ring) (fun _ => by omega), bind_ok]
    have hl3 : (if x > 0 then propagateReference r2 width (x - 1) (y + 1) err 3 else r2).length
        = p.length := by rw [length_ite_propagate, hl2]
    generalize (if x > 0 then propagateReference r2 width (x - 1) (y + 1) err 3 else r2)
      = r3 at *
    -- south
    have e3 : ((y * width + x : Nat) : Int) + (width : Int)
        = (((y + 1) * width + x : Nat) : Int) := by push_cast; ring
    rw [e3, diffuse_reference width x (y + 1) err 5 (by omega), bind_ok]
    -- south-east
    rw [← e3, diffuse_if_reference ((x : Int) + 1 < (width : Int)) (x + 1 < width)
      (((y * width + x : Nat) : Int) + (width : Int) + 1) width (x + 1) (y + 1) err 1 (by omega)
      (fun _ => by push_cast; ring)
      (fun _ => by rw [length_propagateReference]; omega)]
  · have hb1 : (y : Int) + 1 = (height : Int) := by omega
    rw [if_pos hb1]
    simp only [hb, and_false, if_false]


/-- A loop whose body never aborts on the states of an invariant is a fold. -/
theorem forLoop_eq_foldl {σ : Type} (body : Int → σ → Except Abort σ) (f : Nat → σ → σ)
    (Inv : σ → Prop) (n : Nat) (s : σ) (h0 : Inv s)
    (hstep : ∀ k t, k < n → Inv t → body (k : Int) t = .ok (f k t) ∧ Inv (f k t)) :
    forLoop body n 0 s = .ok ((List.range n).foldl (fun t k => f k t) s) ∧
      Inv ((List.range n).foldl (fun t k => f k t) s) := by
  obtain ⟨t, ht, k, hk, hI, he⟩ := forLoop_invariant body
    (fun i t => ∃ k : Nat, (k : Int) = i ∧ Inv t ∧
      t = (List.range k).foldl (fun t k => f k t) s) n 0 s ⟨0, rfl, h0, rfl⟩
    (fun j t hj0 hjn hI => by
      obtain ⟨k, hk, hI, he⟩ := hI
      subst hk
      obtain ⟨hb, hI1⟩ := hstep k t (by omega) hI
      refine ⟨_, hb, k + 1, by push_cast; rfl, hI1, ?_⟩
      rw [List.range_succ, List.foldl_append, ← he]
      rfl)
  have hkn : k = n := by omega
  subst hkn
  subst he
  exact ⟨ht, hI⟩

/-- On an array of `width * height` entries the ditherer returns the scan of the
description. -/
theorem floydSteinbergDither_eq_reference (p : List Nat) (width height : Nat)
    (hlen : p.length = width * height) :
    floydSteinbergDither p (width : Int) (height : Int)
      = .ok (ditherReference p width height) := by
  unfold floydSteinbergDither ditherReference
  simp only [Int.toNat_ofNat]
  exact (forLoop_eq_foldl _
    (fun y rows => (List.range width).foldl
      (fun row x => pixelReference width height y x row) rows)
    (fun t => t.length = width * height) height p hlen
    (fun y rows hy hrows => by
      have h := forLoop_eq_foldl
        (fun x row => ditherPixel (width : Int) (height : Int) (y : Int) x row)
        (fun x row => pixelReference width height y x row)
        (fun t => t.length = width * height) width rows hrows
        (fun x row hx hrow => ⟨ditherPixel_reference hx hy hrow,
          (length_pixelReference width height y x row).trans hrow⟩)
      exact h)).1

/-- C18: on a raster of `width * height` entries `floydSteinbergDither` returns
the scan of the description: row by row and left to right, each value `v` is
replaced by `q = 0` if `v < 128` and `255` otherwise, and with
`error = v - q` the neighbours east (weight 7, if `x + 1 < width`),
south-west (3, if `x > 0` and `y + 1 < height`), south (5, if
`y + 1 < height`) and south-east (1, if `x + 1 < width` and
`y + 1 < height`) are replaced by `clamp(n + floor(error * weight / 16))`; no
other cell is changed. -/
theorem floydSteinbergDither_refines_reference (p : List Nat) (width height : Nat)
    (hlen : p.length = width * height) :
    floydSteinbergDither p (width : Int) (height : Int)
      = .ok (ditherReference p width height) :=
  floydSteinbergDither_eq_reference p width height hlen

/-- An instance of `floydSteinbergDither_refines_reference`: a raster of 3 columns
and 2 rows, with the result of the scan. -/
theorem floydSteinbergDither_refines_reference_witness :
    ([90, 200, 130, 7, 255, 128] : List Nat).length = 3 * 2 ∧
    ditherReference [90, 200, 130, 7, 255, 128] 3 2 = [0, 255, 0, 0, 255, 255] ∧
    floydSteinbergDither [90, 200, 130, 7, 255, 128] ((3 : Nat) : Int) ((2 : Nat) : Int)
      = .ok (ditherReference [90, 200, 130, 7, 255, 128] 3 2) :=
  ⟨by decide, by decide,
    floydSteinbergDither_refines_reference [90, 200, 130, 7, 255, 128] 3 2 (by decide)⟩

/-- C19: for a width and a height that are at least 0 and an array of
`width * height` entries, `floydSteinbergDither` returns, so no access of
the bounds-checked run leaves the array; and at every pixel each of the
positions `currentPos`, `currentPos + 1`, `currentPos + width - 1`,
`currentPos + width`, `currentPos + width + 1` lies in
`0 .. width * height - 1` under the guard it is used with. -/
theorem floydSteinbergDither_in_bounds (p : List Nat) (w h : Int) (hw : 0 ≤ w) (hh : 0 ≤ h)
    (hlen : (p.length : Int) = w * h) :
    (∃ r, floydSteinbergDither p w h = .ok r) ∧
    floydSteinbergDither p w h ≠ .error .outOfBounds ∧
    ∀ x y : Int, 0 ≤ x → x < w → 0 ≤ y → y < h →
      (0 ≤ y * w + x ∧ y * w + x < w * h) ∧
      (x < w - 1 → y * w + x + 1 < w * h) ∧
      (y + 1 ≠ h →
        (x > 0 → 0 ≤ y * w + x + w - 1 ∧ y * w + x + w - 1 < w * h) ∧
        y * w + x + w < w * h ∧
        (x + 1 < w → y * w + x + w + 1 < w * h)) := by
  have hrun : ∃ r, floydSteinbergDither p w h = .ok r := by
    lift w to Nat using hw
    lift h to Nat using hh
    exact ⟨_, floydSteinbergDither_eq_reference p w h (by exact_mod_cast hlen)⟩
  refine ⟨hrun, ?_, ?_⟩
  · obtain ⟨r, hr⟩ := hrun
    rw [hr]
    intro hc
    cases hc
  · intro x y hx0 hxw hy0 hyh
    obtain ⟨hb0, hb1⟩ := row_bounds 1 hw hy0 (by omega : y + 1 ≤ h)
    refine ⟨⟨by omega, by omega⟩, fun _ => by omega, fun hne => ?_⟩
    have hb2 := (row_bounds 2 hw hy0 (by omega : y + 2 ≤ h)).2
    exact ⟨fun _ => ⟨by omega, by omega⟩, by omega, fun _ => by omega⟩

/-- An instance of `floydSteinbergDither_in_bounds`: a raster of width 1. -/
theorem floydSteinbergDither_in_bounds_witness :
    (∃ r, floydSteinbergDither [1, 2, 3, 4, 5, 6] 1 6 = .ok r) ∧
    floydSteinbergDither [1, 2, 3, 4, 5, 6] 1 6 ≠ .error .outOfBounds :=
  ⟨(floydSteinbergDither_in_bounds [1, 2, 3, 4, 5, 6] 1 6 (by decide) (by decide)
      (by decide)).1,
    (floydSteinbergDither_in_bounds [1, 2, 3, 4, 5, 6] 1 6 (by decide) (by decide)
      (by decide)).2.1⟩

theorem getElem?_ite_propagate (r : List Nat) (d : Prop) [Decidable d] (width x y : Nat)
    (error weight : Int) (i : Nat) (h : d → y * width + x ≠ i) :
    (if d then propagateReference r width x y error weight else r)[i]? = r[i]? := by
  split_ifs with hd
  · unfold propagateReference
    rw [List.getElem?_set_ne (h hd)]
  · rfl

/-- The visit of a pixel changes no cell before it, and leaves the quantised value
in the cell itself. -/
theorem pixelReference_getElem? (width height y x : Nat) (r : List Nat) (i : Nat)
    (hx : x < width) (hi : i ≤ y * width + x) :
    (pixelReference width height y x r)[i]?
      = (r.set (y * width + x)
          (if ((r.getD (y * width + x) 0 : Nat) : Int) < 128 then (0 : Int) else 255).toNat)[i]? := by
  have hsucc : (y + 1) * width = y * width + width := by ring
  unfold pixelReference
  simp only []
  rw [getElem?_ite_propagate _ _ _ _ _ _ _ _ (fun _ => by omega),
    getElem?_ite_propagate _ _ _ _ _ _ _ _ (fun _ => by omega),
    getElem?_ite_propagate _ _ _ _ _ _ _ _ (fun h => by omega),
    getElem?_ite_propagate _ _ _ _ _ _ _ _ (fun _ => by omega)]

theorem firstPixelInv_step {p : List Nat} {width height v x y : Nat} {r : List Nat}
    (hx : x < width) (hv : p[0]? = some v)
    (hI : FirstPixelInv p width height v (y * width + x) r) :
    FirstPixelInv p width height v (y * width + x + 1) (pixelReference width height y x r) := by
  obtain ⟨hl, h0, h1⟩ := hI
  refine ⟨(length_pixelReference width height y x r).trans hl, fun h => by omega, fun _ => ?_⟩
  rw [pixelReference_getElem? width height y x r 0 hx (by omega)]
  by_cases hc : y * width + x = 0
  · have hr := h0 hc
    subst hr
    rw [hc]
    have hlen : 0 < r.length := by
      by_contra hn
      rw [List.getElem?_eq_none (by omega)] at hv
      cases hv
    rw [List.getElem?_set_self hlen]
    have hd : r.getD 0 0 = v := by
      rw [List.getD_eq_getElem?_getD, hv]; rfl
    rw [hd]
    by_cases hlt : v < 128
    · have : ((v : Nat) : Int) < 128 := by omega
      simp [hlt, this]
    · have : ¬ ((v : Nat) : Int) < 128 := by omega
      simp [hlt, this]
  · rw [List.getElem?_set_ne hc]
    exact h1 (by omega)

/-- Invariant rule for a fold over `0, ..., n - 1`. -/
theorem foldl_range_invariant {σ : Type} (f : σ → Nat → σ) (Inv : Nat → σ → Prop) :
    ∀ (n : Nat) (s : σ), Inv 0 s → (∀ k t, k < n → Inv k t → Inv (k + 1) (f t k)) →
      Inv n ((List.range n).foldl f s) := by
  intro n
  induction n with
  | zero => intro s h0 _; exact h0
  | succ n ih =>
    intro s h0 hstep
    rw [List.range_succ, List.foldl_append]
    exact hstep n _ (by omega) (ih s h0 (fun k t hk hI => hstep k t (by omega) hI))

/-- C11: with width 1 and height 1 `floydSteinbergDither` replaces the first
entry `v` by 0 if `v < 128` and by 255 otherwise and touches nothing else (on
the raster `[v]` any access to a neighbour would leave the array); and on
every raster of `width * height` entries with a positive width and height the
first entry of the result is 0 if the first input entry is below 128 and 255
otherwise. -/
theorem floydSteinbergDither_first_pixel :
    (∀ (v : Nat) (rest : List Nat),
      floydSteinbergDither (v :: rest) 1 1 = .ok ((if v < 128 then 0 else 255) :: rest)) ∧
    (∀ (p : List Nat) (width height v : Nat), 0 < width → 0 < height →
      p.length = width * height → p[0]? = some v →
      ∃ r, floydSteinbergDither p (width : Int) (height : Int) = .ok r ∧
        r[0]? = some (if v < 128 then 0 else 255)) := by
  constructor
  · intro v rest
    have h0 : ditherPixel 1 1 0 0 (v :: rest) = .ok ((if v < 128 then 0 else 255) :: rest) := by
      rw [ditherPixel_eq]
      have hr : readPixel (v :: rest) (0 * 1 + 0) = .ok (v : Int) := by
        simp [readPixel]
      rw [hr, bind_ok]
      have hw : writePixel (v :: rest) (0 * 1 + 0) (if (v : Int) < 128 then 0 else 255)
          = .ok ((if v < 128 then 0 else 255) :: rest) := by
        by_cases hlt : v < 128
        · have : ((v : Nat) : Int) < 128 := by omega
          simp [writePixel, hlt, this, toByte]
        · have : ¬ ((v : Nat) : Int) < 128 := by omega
          simp [writePixel, hlt, this, toByte]
      rw [hw, bind_ok]
      simp
      rfl
    show forLoop (fun y rows => forLoop (fun x row => ditherPixel 1 1 y x row) 1 0 rows) 1 0
      (v :: rest) = _
    simp only [forLoop, h0]
  · intro p width height v hw hh hlen hv
    refine ⟨_, floydSteinbergDither_eq_reference p width height hlen, ?_⟩
    have hI : FirstPixelInv p width height v (height * width) (ditherReference p width height) :=
      foldl_range_invariant
        (fun rows y => (List.range width).foldl
          (fun row x => pixelReference width height y x row) rows)
        (fun y r => FirstPixelInv p width height v (y * width) r) height p
        ⟨hlen, fun _ => rfl, fun h => by omega⟩
        (fun y r _ hr => by
          have h := foldl_range_invariant (fun row x => pixelReference width height y x row)
            (fun x t => FirstPixelInv p width height v (y * width + x) t) width r
            (by simpa using hr)
            (fun x t hx ht => firstPixelInv_step hx hv ht)
          have e : (y + 1) * width = y * width + width := by ring
          show FirstPixelInv p width height v ((y + 1) * width) _
          rw [e]
          exact h)
    exact hI.2.2 (Nat.mul_pos hh hw)

/-- An instance of `floydSteinbergDither_first_pixel`: the raster with rows
`[100, 150]` and `[200, 50]`. -/
theorem floydSteinbergDither_first_pixel_witness :
    ∃ r, floydSteinbergDither [100, 150, 200, 50] ((2 : Nat) : Int) ((2 : Nat) : Int) = .ok r ∧
      r[0]? = some (if 100 < 128 then 0 else 255) :=
  floydSteinbergDither_first_pixel.2 [100, 150, 200, 50] 2 2 100 (by decide) (by decide)
    (by decide) (by decide)

/-- The four shares of an error never add up to more than the error, and fall
short of it by at most 3. -/
theorem shares_sum (e : Int) :
    e - 3 ≤ (e * 7) >>> 4 + (e * 3) >>> 4 + (e * 5) >>> 4 + (e * 1) >>> 4 ∧
      (e * 7) >>> 4 + (e * 3) >>> 4 + (e * 5) >>> 4 + (e * 1) >>> 4 ≤ e := by
  simp only [shiftRight_four]
  omega

theorem bytes_set {r : List Nat} (k a : Nat) (hr : ∀ v ∈ r, v < 256) (ha : a < 256) :
    ∀ v ∈ r.set k a, v < 256 := by
  intro v hv
  rcases List.mem_or_eq_of_mem_set hv with h | h
  · exact hr v h
  · omega

theorem bytes_ite_propagate {r : List Nat} (d : Prop) [Decidable d] (width x y : Nat)
    (error weight : Int) (hr : ∀ v ∈ r, v < 256) :
    ∀ v ∈ (if d then propagateReference r width x y error weight else r), v < 256 := by
  split_ifs
  · unfold propagateReference
    apply bytes_set _ _ hr
    unfold clampReference
    split_ifs <;> omega
  · exact hr

theorem bytes_pixelReference (width height y x : Nat) {r : List Nat}
    (hr : ∀ v ∈ r, v < 256) : ∀ v ∈ pixelReference width height y x r, v < 256 := by
  unfold pixelReference
  simp only []
  apply bytes_ite_propagate
  apply bytes_ite_propagate
  apply bytes_ite_propagate
  apply bytes_ite_propagate
  apply bytes_set _ _ hr
  split_ifs <;> decide

/-- C20: when a pixel of a raster of bytes is visited, the quantisation error lies
in `[-127, 127]`, and the visit leaves a raster of bytes, so this holds at
every pixel of the scan; for every error `e` the four shares `(e*7)>>4`,
`(e*3)>>4`, `(e*5)>>4`, `(e*1)>>4` add up to a value between `e - 3` and
`e`. -/
theorem ditherError_bounds (p : List Nat) (width height x y : Nat) (hx : x < width)
    (hy : y < height) (hlen : p.length = width * height) (hbytes : ∀ v ∈ p, v < 256) :
    (∃ e : Int, ditherError (width : Int) (y : Int) (x : Int) p = .ok e ∧ -127 ≤ e ∧ e ≤ 127 ∧
      e - 3 ≤ (e * 7) >>> 4 + (e * 3) >>> 4 + (e * 5) >>> 4 + (e * 1) >>> 4 ∧
      (e * 7) >>> 4 + (e * 3) >>> 4 + (e * 5) >>> 4 + (e * 1) >>> 4 ≤ e) ∧
    (∃ p1, ditherPixel (width : Int) (height : Int) (y : Int) (x : Int) p = .ok p1 ∧
      p1.length = width * height ∧ ∀ v ∈ p1, v < 256) ∧
    (∀ e : Int, -127 ≤ e → e ≤ 127 →
      e - 3 ≤ (e * 7) >>> 4 + (e * 3) >>> 4 + (e * 5) >>> 4 + (e * 1) >>> 4 ∧
      (e * 7) >>> 4 + (e * 3) >>> 4 + (e * 5) >>> 4 + (e * 1) >>> 4 ≤ e) := by
  have hrow : y * width + width ≤ width * height := by
    have h1 : (y + 1) * width ≤ height * width := Nat.mul_le_mul_right width hy
    have h2 : (y + 1) * width = y * width + width := by ring
    have h3 : height * width = width * height := by ring
    omega
  have hc : y * width + x < p.length := by omega
  have e0 : (y : Int) * (width : Int) + (x : Int) = ((y * width + x : Nat) : Int) := by
    push_cast; ring
  have hv : p.getD (y * width + x) 0 < 256 := by
    rw [List.getD_eq_getElem?_getD, List.getElem?_eq_getElem hc]
    exact hbytes _ (List.getElem_mem hc)
  have herr : ditherError (width : Int) (y : Int) (x : Int) p
      = .ok (((p.getD (y * width + x) 0 : Nat) : Int)
          - (if ((p.getD (y * width + x) 0 : Nat) : Int) < 128 then 0 else 255)) := by
    simp only [ditherError, e0, readPixel_cast hc, bind, Except.bind, pure, Except.pure]
  refine ⟨⟨_, herr, ?_, ?_, shares_sum _⟩, ⟨_, ditherPixel_reference hx hy hlen,
    (length_pixelReference width height y x p).trans hlen,
    bytes_pixelReference width height y x hbytes⟩, fun e _ _ => shares_sum e⟩
  · split_ifs <;> omega
  · split_ifs <;> omega

/-- An instance of `ditherError_bounds`: the pixel `(0, 1)` of a 2x2 raster, whose
error is negative. -/
theorem ditherError_bounds_witness :
    ∃ e : Int, ditherError ((2 : Nat) : Int) ((1 : Nat) : Int) ((0 : Nat) : Int) [0, 255, 219, 36]
        = .ok e ∧ -127 ≤ e ∧ e ≤ 127 ∧
      e - 3 ≤ (e * 7) >>> 4 + (e * 3) >>> 4 + (e * 5) >>> 4 + (e * 1) >>> 4 ∧
      (e * 7) >>> 4 + (e * 3) >>> 4 + (e * 5) >>> 4 + (e * 1) >>> 4 ≤ e :=
  (ditherError_bounds [0, 255, 219, 36] 2 2 0 1 (by decide) (by decide) (by decide)
    (by decide)).1

end Rimg
